import Mathlib

/-!
# NoFi acoustic chat: a shallow embedding of the core data link

This file embeds the core of the NoFi audio-modem chat component
(tone encoder, frequency-sample decoder state machine, framing and
deduplication layer, relay-queue scheduler) as executable Lean
definitions, and proves properties of the embedded code.

The embedding follows the dual-mode revision of the component
(`src/unnamed/part_000`): protocol constants, `transmitAudio`,
`startAudioMonitoring`'s per-tick dispatch, `handleFrequencyInput`,
`commitReceivedMessage`, and the auto-relay interval handler.
JavaScript strings are embedded as `List Char`, `Date.now()`
millisecond timestamps as `ℕ` (JS subtraction guarded by monotone
time corresponds to truncated subtraction), and frequencies,
amplitudes and schedule times as `ℚ`.  React state setters that only
feed the presentation layer (`setIncomingBuffer`, `setIsReceiving`,
`setAudioLevel`, `setSignalStrength`, `addLog`) are not modelled;
the log branch distinctions of `handleFrequencyInput` are kept as an
explicit `StepEvent` tag so that the control-flow path taken by a
sample is part of the function's result.
-/

namespace NoFi

/-- The two transmission modes of `PROTOCOL.MODES`. -/
inductive ModeName where
  | AUDIBLE
  | STEALTH
deriving DecidableEq, Repr

/-- `PROTOCOL.THRESHOLD` (noise gate level). -/
def THRESHOLD : ℚ := 20

/-- `PROTOCOL.RANGE`, the default tolerance of the `isFreq` helper. -/
def RANGE : ℚ := 100

/-- `PROTOCOL.SILENCE_TIMEOUT` in milliseconds. -/
def SILENCE_TIMEOUT : ℕ := 1000

/-- `PROTOCOL.IDLE_TIMEOUT` in milliseconds. -/
def IDLE_TIMEOUT : ℕ := 3000

/-- The hard-coded no-progress timeout of `handleFrequencyInput`
(`now - d.lastCharDecoded > 3000`). -/
def NO_PROGRESS_TIMEOUT : ℕ := 3000

/-- `PROTOCOL.SEPARATOR`. -/
def SEPARATOR : Char := '|'

/-- `PROTOCOL.TONE_DURATION` in seconds. -/
def TONE_DURATION : ℚ := 12 / 100

/-- `PROTOCOL.GAP_DURATION` in seconds. -/
def GAP_DURATION : ℚ := 4 / 100

/-- `MARKER` frequency of each mode. -/
def markerOf : ModeName → ℚ
  | .AUDIBLE => 2000
  | .STEALTH => 16000

/-- `BASE` frequency of each mode. -/
def baseOf : ModeName → ℚ
  | .AUDIBLE => 2200
  | .STEALTH => 16500

/-- Step frequency used for a mode: `PROTOCOL.STEP_FREQ` (60) for
`AUDIBLE`, the mode-local `STEP_FREQ` (40) for `STEALTH`, exactly as
selected by `transmitAudio` and by the `READ_CHAR` branch. -/
def stepOf : ModeName → ℚ
  | .AUDIBLE => 60
  | .STEALTH => 40

/-- The decoder's finite-state-machine state
(`'IDLE' | 'WAIT_MARKER' | 'READ_CHAR'`). -/
inductive DSt where
  | IDLE
  | WAIT_MARKER
  | READ_CHAR
deriving DecidableEq, Repr

/-- The mutable decoder record held in `decoderRef`. -/
structure Decoder where
  state : DSt
  buffer : List Char
  lastDetectedChar : Option Char
  silenceTimer : Option ℕ
  lastValidRead : ℕ
  lastCharDecoded : ℕ
  consecutiveFrames : ℕ
  activeMode : ModeName
deriving DecidableEq, Repr

/-- The initial decoder value of `decoderRef` at creation time `t`. -/
def initDecoder (t : ℕ) : Decoder :=
  { state := .IDLE
    buffer := []
    lastDetectedChar := none
    silenceTimer := none
    lastValidRead := t
    lastCharDecoded := t
    consecutiveFrames := 0
    activeMode := .AUDIBLE }

/-- Which control-flow path a call of `handleFrequencyInput` took:
`commitNoProgress` and `commitSilence` are the two branches that call
`commitReceivedMessage` (the first one also logs
"Timeout: Committing partial message"), `idleReset` is the silent
reset branch, `quiet` is every branch that returns without
committing. -/
inductive StepEvent where
  | quiet
  | commitNoProgress
  | commitSilence
  | idleReset
deriving DecidableEq, Repr

/-- The silence-timeout test `d.silenceTimer !== null && now - d.silenceTimer > PROTOCOL.SILENCE_TIMEOUT`. -/
def silenceExpired (timer : Option ℕ) (now : ℕ) : Bool :=
  match timer with
  | some ts => SILENCE_TIMEOUT < now - ts
  | none => false

/-- The `isFreq` helper of `handleFrequencyInput`:
`Math.abs(freq - target) < range` with the default `range = 100`. -/
def isFreq (freq target : ℚ) : Bool :=
  |freq - target| < RANGE

/-- The marker scan of the `IDLE`/`WAIT_MARKER` branch: test the
audible marker first, then the stealth marker. -/
def detectMode (freq : ℚ) : Option ModeName :=
  if isFreq freq (markerOf .AUDIBLE) then some .AUDIBLE
  else if isFreq freq (markerOf .STEALTH) then some .STEALTH
  else none

/-- The round of the character estimate:
`Math.round((freq - base) / step)` for the active mode.  Lean's
`round` on `ℚ` is `⌊x + 1/2⌋`, which agrees with JavaScript
`Math.round` on every input. -/
def estimateChar (mo : ModeName) (freq : ℚ) : ℤ :=
  round ((freq - baseOf mo) / stepOf mo)

/-- The sub-threshold branch of `handleFrequencyInput`: zero the
debounce counter and, when holding data with no silence timer
running, start one. -/
def noiseGate (d : Decoder) (now : ℕ) : Decoder :=
  let d1 := { d with consecutiveFrames := 0 }
  if 0 < d1.buffer.length ∧ d1.silenceTimer = none then
    { d1 with silenceTimer := some now }
  else d1

/-- The `IDLE`/`WAIT_MARKER` branch of `handleFrequencyInput`:
scan for either mode's marker, lock onto the detected mode, and
after two consecutive confirming frames transition to `READ_CHAR`. -/
def scanStep (d : Decoder) (now : ℕ) (freq : ℚ) : Decoder :=
  match detectMode freq with
  | some m =>
    let d2 := { d with activeMode := m,
                       consecutiveFrames := d.consecutiveFrames + 1 }
    if 2 ≤ d2.consecutiveFrames then
      let d3 := { d2 with state := .READ_CHAR, consecutiveFrames := 0,
                          lastDetectedChar := none, lastValidRead := now }
      if 0 < d3.buffer.length then { d3 with silenceTimer := some now }
      else d3
    else d2
  | none => { d with consecutiveFrames := 0 }

/-- The `READ_CHAR` branch of `handleFrequencyInput`: ignore the
active mode's marker, estimate the character, accept it only when it
is in the printable range and the frequency is within half a step of
its exact center, and after three consecutive confirming frames
append it to the buffer (unless it repeats the immediately preceding
detection). -/
def readStep (d : Decoder) (now : ℕ) (freq : ℚ) : Decoder :=
  if isFreq freq (markerOf d.activeMode) then
    { d with consecutiveFrames := 0 }
  else
    let estimatedChar : ℤ := estimateChar d.activeMode freq
    if 32 ≤ estimatedChar ∧ estimatedChar ≤ 126 then
      let expectedFreq := baseOf d.activeMode + estimatedChar * stepOf d.activeMode
      if |freq - expectedFreq| < stepOf d.activeMode / 2 then
        let d2 := { d with consecutiveFrames := d.consecutiveFrames + 1 }
        if 3 ≤ d2.consecutiveFrames then
          let c := Char.ofNat estimatedChar.toNat
          if some c ≠ d2.lastDetectedChar then
            { d2 with buffer := d2.buffer ++ [c],
                      lastDetectedChar := some c,
                      lastCharDecoded := now,
                      state := .WAIT_MARKER,
                      consecutiveFrames := 0,
                      lastValidRead := now,
                      silenceTimer := some now }
          else d2
        else d2
      else { d with consecutiveFrames := 0 }
    else { d with consecutiveFrames := 0 }

/-- `handleFrequencyInput(freq, amplitude)` at time `now`, as a pure
function on the decoder record.  The two commit branches return the
decoder unchanged together with the corresponding event tag; the
actual commit (which reads the buffer and resets the decoder) is
applied by `stationStep` below, mirroring the call to
`commitReceivedMessage` followed by `return`. -/
def handleFrequencyInput (d : Decoder) (now : ℕ) (freq amp : ℚ) :
    Decoder × StepEvent :=
  -- 1. Timeout checks
  if 0 < d.buffer.length ∧ NO_PROGRESS_TIMEOUT < now - d.lastCharDecoded then
    (d, .commitNoProgress)
  else if 0 < d.buffer.length ∧ silenceExpired d.silenceTimer now then
    (d, .commitSilence)
  else if d.state ≠ .IDLE ∧ d.buffer.length = 0 ∧
      IDLE_TIMEOUT < now - d.lastValidRead then
    ({ d with state := .IDLE, buffer := [], lastDetectedChar := none,
              consecutiveFrames := 0 }, .idleReset)
  -- 2. Noise gate
  else if amp < THRESHOLD then
    (noiseGate d now, .quiet)
  else
    -- A strong signal is present: clear any running silence timer.
    let d1 := if 0 < d.buffer.length then { d with silenceTimer := none } else d
    match d1.state with
    | .READ_CHAR => (readStep d1 now freq, .quiet)
    | _ => (scanStep d1 now freq, .quiet)

/-! ## Framing and deduplication layer -/

/-- Sender tag of a chat message. -/
inductive Sender where
  | me
  | other
  | system
deriving DecidableEq, Repr

/-- A chat `Message`. -/
structure Message where
  id : List Char
  text : List Char
  sender : Sender
  timestamp : ℕ
deriving DecidableEq, Repr

/-- Status of a `RelayMessage`. -/
inductive RelayStatus where
  | pending
  | relayed
deriving DecidableEq, Repr

/-- A `RelayMessage` entry of the relay queue. -/
structure RelayEntry where
  id : List Char
  text : List Char
  receivedAt : ℕ
  status : RelayStatus
  relayAfter : ℕ
deriving DecidableEq, Repr

/-- The whitespace test of JavaScript `String.prototype.trim`,
restricted to the ASCII whitespace characters that can occur in
this protocol's payloads. -/
def isWhite (c : Char) : Bool :=
  c = ' ' ∨ c = '\t' ∨ c = '\n' ∨ c = '\r'

/-- JavaScript `rawData.trim()` on a character list. -/
def trimChars (l : List Char) : List Char :=
  ((l.dropWhile isWhite).reverse.dropWhile isWhite).reverse

/-- JavaScript `String.prototype.split` with a one-character
separator: `"a|b|".split('|') = ["a","b",""]`, and splitting never
yields an empty list. -/
def splitSep (sep : Char) : List Char → List (List Char)
  | [] => [[]]
  | c :: rest =>
      if c = sep then [] :: splitSep sep rest
      else
        match splitSep sep rest with
        | [] => [[c]]
        | g :: gs => (c :: g) :: gs

/-- The id/text extraction of `commitReceivedMessage`: if the
(already trimmed) data contains the separator, the first
split segment is the id and the remaining segments rejoined with the
separator are the text; otherwise the freshly generated id is used
and the whole data is the text. -/
def parseFrame (freshId : List Char) (rawData : List Char) : List Char × List Char :=
  if rawData.contains SEPARATOR then
    let parts := splitSep SEPARATOR rawData
    if 2 ≤ parts.length then
      (parts.headI, List.intercalate [SEPARATOR] parts.tail)
    else (freshId, rawData)
  else (freshId, rawData)

/-- The full per-device state the claims are about: the decoder
record (`decoderRef`), the set of already observed ids
(`seenIdsRef`, kept as a list whose membership is what matters), the
chat message list and the relay queue. -/
structure Station where
  dec : Decoder
  seenIds : List (List Char)
  messages : List Message
  relayQueue : List RelayEntry
deriving DecidableEq, Repr

/-- The initial station: fresh decoder, `seenIds = {"SYS1"}`, the
initial system message, empty relay queue. -/
def initStation (t : ℕ) : Station :=
  { dec := initDecoder t
    seenIds := [['S', 'Y', 'S', '1']]
    messages := [⟨['S', 'Y', 'S', '1'], [], .system, t⟩]
    relayQueue := [] }

/-- `commitReceivedMessage()` at time `now`.  `freshId` is the value
`generateId()` would return and `delay` the drawn random relay delay
(both nondeterministic in the source, hence parameters here).  Trims
the buffer; if non-empty, parses id and text, and unless the id was
already seen, records the id, appends one inbound `Message` and
enqueues one pending `RelayEntry`.  In all cases the decoder's
buffer, last detected character, state, silence timer and
`lastCharDecoded` are then reset (and nothing else). -/
def commitReceivedMessage (st : Station) (now : ℕ) (freshId : List Char)
    (delay : ℕ) : Station :=
  let rawData := trimChars st.dec.buffer
  let st1 :=
    if 0 < rawData.length then
      let msgId := (parseFrame freshId rawData).1
      let msgText := (parseFrame freshId rawData).2
      if st.seenIds.contains msgId then st
      else
        { st with
          seenIds := st.seenIds ++ [msgId]
          messages := st.messages ++ [⟨msgId, msgText, .other, now⟩]
          relayQueue := st.relayQueue ++
            [⟨msgId, msgText, now, .pending, delay⟩] }
    else st
  { st1 with
    dec := { st1.dec with
      buffer := []
      lastDetectedChar := none
      state := .IDLE
      silenceTimer := none
      lastCharDecoded := now } }

/-- One decoder step at the station level: run
`handleFrequencyInput`; when it took a commit branch, apply
`commitReceivedMessage` (which also resets the decoder), otherwise
keep the stepped decoder. -/
def stationStep (st : Station) (now : ℕ) (freq amp : ℚ)
    (freshId : List Char) (delay : ℕ) : Station × StepEvent :=
  match handleFrequencyInput st.dec now freq amp with
  | (d', .quiet) => ({ st with dec := d' }, .quiet)
  | (d', .idleReset) => ({ st with dec := d' }, .idleReset)
  | (_, .commitNoProgress) =>
      (commitReceivedMessage st now freshId delay, .commitNoProgress)
  | (_, .commitSilence) =>
      (commitReceivedMessage st now freshId delay, .commitSilence)

/-- One tick of the monitoring loop in `startAudioMonitoring`: while
`isSendingRef.current` is set, the decoder is not stepped at all and
only its `consecutiveFrames` counter is zeroed; otherwise the
dominant frequency and its amplitude are fed to the decoder when the
amplitude clears the threshold, and `(0, 0)` is fed otherwise. -/
def monitorTick (st : Station) (isSendingRef : Bool) (now : ℕ)
    (dominantFreq maxVal : ℚ) (freshId : List Char) (delay : ℕ) :
    Station × StepEvent :=
  if isSendingRef then
    ({ st with dec := { st.dec with consecutiveFrames := 0 } }, .quiet)
  else if THRESHOLD < maxVal then
    stationStep st now dominantFreq maxVal freshId delay
  else
    stationStep st now 0 0 freshId delay

/-- Feed a list of timed `(time, freq, amplitude)` samples through
`stationStep`, keeping the final station. -/
def processSamples (freshId : List Char) (delay : ℕ) :
    Station → List (ℕ × ℚ × ℚ) → Station
  | st, [] => st
  | st, (t, f, a) :: rest =>
      processSamples freshId delay
        (stationStep st t f a freshId delay).1 rest

/-! ## Relay scheduler -/

/-- The readiness filter of the auto-relay interval handler:
`msg.status === 'pending' && (now - msg.receivedAt.getTime()) >= msg.relayAfter`. -/
def isReady (now : ℕ) (m : RelayEntry) : Bool :=
  m.status = RelayStatus.pending ∧ m.relayAfter ≤ now - m.receivedAt

/-- One 1-second tick of the auto-relay `setInterval` handler,
with the completion callback of `transmitAudio` folded in: if the
channel is busy (`isSendingRef.current || isReceiving`) the queue is
returned unchanged and nothing is transmitted; otherwise the first
pending entry whose relay delay has elapsed is transmitted and, on
completion, every queue entry carrying its id is marked `relayed`.
The second component is the id of the transmitted entry, if any. -/
def relayTick (queue : List RelayEntry) (sending receiving : Bool)
    (now : ℕ) : List RelayEntry × Option (List Char) :=
  if sending ∨ receiving then (queue, none)
  else
    match queue.filter (isReady now) with
    | [] => (queue, none)
    | msg :: _ =>
        (queue.map (fun m =>
          if m.id = msg.id then { m with status := .relayed } else m),
         some msg.id)

/-! ## Modulator -/

/-- One scheduled tone of `transmitAudio`: frequency, start time and
duration in seconds. -/
structure ToneEvent where
  freq : ℚ
  start : ℚ
  dur : ℚ
deriving DecidableEq, Repr

/-- The data-tone frequency for a character:
`mode.BASE + charCode * step`. -/
def dataFreq (m : ModeName) (c : Char) : ℚ :=
  baseOf m + c.toNat * stepOf m

/-- The tone-scheduling loop of `transmitAudio`, with the running
`startTime` made explicit: for each character of the payload, a
marker tone of `TONE_DURATION`, a gap, then the data tone, then
another gap. -/
def scheduleFrom (m : ModeName) : ℚ → List Char → List ToneEvent
  | _, [] => []
  | start, c :: rest =>
      ⟨markerOf m, start, TONE_DURATION⟩ ::
      ⟨dataFreq m c, start + TONE_DURATION + GAP_DURATION, TONE_DURATION⟩ ::
      scheduleFrom m (start + 2 * (TONE_DURATION + GAP_DURATION)) rest

/-- The complete tone schedule of `transmitAudio(text)` issued at
audio-context time `now`: tones start at `now + 0.1`. -/
def toneSchedule (m : ModeName) (now : ℚ) (text : List Char) : List ToneEvent :=
  scheduleFrom m (now + 1 / 10) text

/-- Quantize a tone schedule into a per-tick sample stream: the
`i`-th tone is heard as `counts[i]` consecutive ticks whose dominant
frequency is that tone's frequency, all with amplitude `amp` and
timestamped `t`. -/
def quantizeSchedule (events : List ToneEvent) (counts : List ℕ)
    (t : ℕ) (amp : ℚ) : List (ℕ × ℚ × ℚ) :=
  (events.zip counts).flatMap
    (fun ec => List.replicate ec.2 (t, ec.1.freq, amp))

/-- Interleave per-character (marker-ticks, data-ticks) hold counts
into the flat per-tone count list matching the tone schedule. -/
def interleaveCounts : List (ℕ × ℕ) → List ℕ
  | [] => []
  | (mk, dk) :: rest => mk :: dk :: interleaveCounts rest

/-- The payload string built by `sendMessage`:
`` `${newId}${PROTOCOL.SEPARATOR}${textToSend}` ``. -/
def sendPayload (newId text : List Char) : List Char :=
  newId ++ [SEPARATOR] ++ text

/-! ## Supporting lemmas -/

/-- Splitting never yields an empty list of segments. -/
theorem splitSep_ne_nil (sep : Char) (l : List Char) : splitSep sep l ≠ [] := by
  induction l with
  | nil => simp [splitSep]
  | cons c rest ih =>
    simp only [splitSep]
    split
    · simp
    · cases hsp : splitSep sep rest with
      | nil => exact absurd hsp ih
      | cons g gs => simp

/-- A list containing the separator splits into at least two
segments. -/
theorem two_le_length_splitSep (sep : Char) (l : List Char) (h : sep ∈ l) :
    2 ≤ (splitSep sep l).length := by
  induction l with
  | nil => simp at h
  | cons c rest ih =>
    simp only [splitSep]
    by_cases hc : c = sep
    · rw [if_pos hc]
      have hne := splitSep_ne_nil sep rest
      have hpos : 0 < (splitSep sep rest).length := List.length_pos.mpr hne
      simp only [List.length_cons]
      omega
    · rw [if_neg hc]
      have hmem : sep ∈ rest := by
        rcases List.mem_cons.mp h with h1 | h2
        · exact absurd h1.symm hc
        · exact h2
      cases hsp : splitSep sep rest with
      | nil => exact absurd hsp (splitSep_ne_nil sep rest)
      | cons g gs =>
        have h2 := ih hmem
        rw [hsp] at h2
        simpa using h2

/-- When the raw data contains the separator, `parseFrame` returns
the first split segment as id and the rejoined remaining segments as
text. -/
theorem parseFrame_of_mem (fid raw : List Char) (h : SEPARATOR ∈ raw) :
    parseFrame fid raw
      = ((splitSep SEPARATOR raw).headI,
         List.intercalate [SEPARATOR] (splitSep SEPARATOR raw).tail) := by
  unfold parseFrame
  rw [if_pos (by simpa using h),
      if_pos (two_le_length_splitSep SEPARATOR raw h)]

/-- When the raw data does not contain the separator, `parseFrame`
falls back to the freshly generated id and the whole data. -/
theorem parseFrame_of_not_mem (fid raw : List Char) (h : SEPARATOR ∉ raw) :
    parseFrame fid raw = (fid, raw) := by
  unfold parseFrame
  rw [if_neg (by simpa using h)]

/-- A commit with a non-empty trimmed buffer whose parsed id is
unseen appends exactly one inbound message, one pending relay entry,
and records the id. -/
theorem commit_emit (st : Station) (now : ℕ) (fid : List Char) (delay : ℕ)
    (hlen : 0 < (trimChars st.dec.buffer).length)
    (hnew : st.seenIds.contains
      (parseFrame fid (trimChars st.dec.buffer)).1 = false) :
    (commitReceivedMessage st now fid delay).messages
      = st.messages ++ [⟨(parseFrame fid (trimChars st.dec.buffer)).1,
          (parseFrame fid (trimChars st.dec.buffer)).2, Sender.other, now⟩] ∧
    (commitReceivedMessage st now fid delay).relayQueue
      = st.relayQueue ++ [⟨(parseFrame fid (trimChars st.dec.buffer)).1,
          (parseFrame fid (trimChars st.dec.buffer)).2, now,
          RelayStatus.pending, delay⟩] ∧
    (commitReceivedMessage st now fid delay).seenIds
      = st.seenIds ++ [(parseFrame fid (trimChars st.dec.buffer)).1] := by
  unfold commitReceivedMessage
  dsimp only
  rw [if_pos hlen, if_neg (by simpa using hnew)]
  simp

/-- A commit whose parsed id was already seen changes neither the
message list nor the relay queue nor the seen-id set. -/
theorem commit_dup (st : Station) (now : ℕ) (fid : List Char) (delay : ℕ)
    (hseen : st.seenIds.contains
      (parseFrame fid (trimChars st.dec.buffer)).1 = true) :
    (commitReceivedMessage st now fid delay).messages = st.messages ∧
    (commitReceivedMessage st now fid delay).relayQueue = st.relayQueue ∧
    (commitReceivedMessage st now fid delay).seenIds = st.seenIds := by
  unfold commitReceivedMessage
  dsimp only
  by_cases hlen : 0 < (trimChars st.dec.buffer).length
  · rw [if_pos hlen, if_pos hseen]
    simp
  · rw [if_neg hlen]
    simp

/-- On a strong sample with no timeout firing,
`handleFrequencyInput` clears any running silence timer and
dispatches on the decoder state. -/
theorem hfi_strong (d : Decoder) (now : ℕ) (freq amp : ℚ)
    (hA : ¬(0 < d.buffer.length ∧
      NO_PROGRESS_TIMEOUT < now - d.lastCharDecoded))
    (hB : ¬(0 < d.buffer.length ∧ silenceExpired d.silenceTimer now = true))
    (hC : ¬(d.state ≠ DSt.IDLE ∧ d.buffer.length = 0 ∧
      IDLE_TIMEOUT < now - d.lastValidRead))
    (hamp : THRESHOLD ≤ amp) :
    handleFrequencyInput d now freq amp
      = (match (if 0 < d.buffer.length then { d with silenceTimer := none }
                else d).state with
         | DSt.READ_CHAR =>
             readStep (if 0 < d.buffer.length
               then { d with silenceTimer := none } else d) now freq
         | _ =>
             scanStep (if 0 < d.buffer.length
               then { d with silenceTimer := none } else d) now freq,
         StepEvent.quiet) := by
  unfold handleFrequencyInput
  rw [if_neg hA, if_neg hB, if_neg hC, if_neg (not_lt.mpr hamp)]
  dsimp only
  cases h : (if 0 < d.buffer.length then { d with silenceTimer := none }
      else d).state <;> simp [h]

/-- Clearing the silence timer on a strong sample does not change
the FSM state, buffer, counter, mode, last detection or the two
progress timestamps. -/
theorem clearTimer_fields (d : Decoder) :
    (if 0 < d.buffer.length then { d with silenceTimer := none }
     else d).state = d.state ∧
    (if 0 < d.buffer.length then { d with silenceTimer := none }
     else d).buffer = d.buffer ∧
    (if 0 < d.buffer.length then { d with silenceTimer := none }
     else d).consecutiveFrames = d.consecutiveFrames ∧
    (if 0 < d.buffer.length then { d with silenceTimer := none }
     else d).activeMode = d.activeMode ∧
    (if 0 < d.buffer.length then { d with silenceTimer := none }
     else d).lastDetectedChar = d.lastDetectedChar ∧
    (if 0 < d.buffer.length then { d with silenceTimer := none }
     else d).lastValidRead = d.lastValidRead ∧
    (if 0 < d.buffer.length then { d with silenceTimer := none }
     else d).lastCharDecoded = d.lastCharDecoded := by
  by_cases h : 0 < d.buffer.length <;> simp [h]

/-- Characterization of the `READ_CHAR` branch on a non-marker
sample: a candidate outside the printable range, or farther than
half a step from its exact center frequency, zeroes the debounce
counter and leaves everything else alone; an in-range, in-window
candidate increments the counter, and on reaching the threshold
with a fresh character appends it to the buffer. -/
theorem readStep_spec (d : Decoder) (now : ℕ) (freq : ℚ)
    (hmark : isFreq freq (markerOf d.activeMode) = false) :
    ((¬(32 ≤ estimateChar d.activeMode freq ∧
        estimateChar d.activeMode freq ≤ 126) ∨
      ¬(|freq - (baseOf d.activeMode
          + estimateChar d.activeMode freq * stepOf d.activeMode)|
         < stepOf d.activeMode / 2)) →
      readStep d now freq = { d with consecutiveFrames := 0 }) ∧
    ((32 ≤ estimateChar d.activeMode freq ∧
      estimateChar d.activeMode freq ≤ 126) →
     |freq - (baseOf d.activeMode
        + estimateChar d.activeMode freq * stepOf d.activeMode)|
       < stepOf d.activeMode / 2 →
     d.consecutiveFrames + 1 < 3 →
      readStep d now freq
        = { d with consecutiveFrames := d.consecutiveFrames + 1 }) ∧
    ((32 ≤ estimateChar d.activeMode freq ∧
      estimateChar d.activeMode freq ≤ 126) →
     |freq - (baseOf d.activeMode
        + estimateChar d.activeMode freq * stepOf d.activeMode)|
       < stepOf d.activeMode / 2 →
     3 ≤ d.consecutiveFrames + 1 →
     some (Char.ofNat (estimateChar d.activeMode freq).toNat)
       ≠ d.lastDetectedChar →
      readStep d now freq
        = { d with
            buffer := d.buffer
              ++ [Char.ofNat (estimateChar d.activeMode freq).toNat],
            lastDetectedChar :=
              some (Char.ofNat (estimateChar d.activeMode freq).toNat),
            lastCharDecoded := now,
            state := DSt.WAIT_MARKER,
            consecutiveFrames := 0,
            lastValidRead := now,
            silenceTimer := some now }) := by
  have hmark' : ¬(isFreq freq (markerOf d.activeMode) = true) := by
    simp [hmark]
  refine ⟨?_, ?_, ?_⟩
  · rintro (hrange | htight)
    · unfold readStep
      rw [if_neg hmark', if_neg hrange]
    · unfold readStep
      by_cases hrange : 32 ≤ estimateChar d.activeMode freq ∧
          estimateChar d.activeMode freq ≤ 126
      · rw [if_neg hmark', if_pos hrange, if_neg htight]
      · rw [if_neg hmark', if_neg hrange]
  · intro hrange htight hlt
    unfold readStep
    rw [if_neg hmark', if_pos hrange, if_pos htight,
        if_neg (by simpa using Nat.not_le.mpr hlt)]
  · intro hrange htight hge hfresh
    unfold readStep
    rw [if_neg hmark', if_pos hrange, if_pos htight,
        if_pos (by simpa using hge), if_pos (by simpa using hfresh)]

/-! ## Frequency arithmetic facts used by the round-trip proof -/

/-- A frequency always matches itself within the tolerance. -/
theorem isFreq_self (f : ℚ) : isFreq f f = true := by
  simp only [isFreq, RANGE, sub_self, abs_zero, decide_eq_true_eq]
  norm_num

/-- The marker scan locks onto the mode whose marker is heard. -/
theorem detectMode_marker (mo : ModeName) :
    detectMode (markerOf mo) = some mo := by
  cases mo
  · simp [detectMode, isFreq_self]
  · have h1 : isFreq (markerOf .STEALTH) (markerOf .AUDIBLE) = false := by
      simp only [isFreq, markerOf, RANGE, decide_eq_false_iff_not]
      rw [abs_sub_lt_iff]
      rintro ⟨h, -⟩
      norm_num at h
    simp [detectMode, h1, isFreq_self]

/-- A printable character's data tone never falls within tolerance
of either mode's marker. -/
theorem isFreq_data_marker (mo mo' : ModeName) (c : Char)
    (h32 : 32 ≤ c.toNat) (h126 : c.toNat ≤ 126) :
    isFreq (dataFreq mo c) (markerOf mo') = false := by
  have hk0 : (0 : ℚ) ≤ (c.toNat : ℚ) := Nat.cast_nonneg _
  have hk126 : ((c.toNat : ℚ)) ≤ 126 := by exact_mod_cast h126
  have hk32 : (32 : ℚ) ≤ (c.toNat : ℚ) := by exact_mod_cast h32
  cases mo <;> cases mo' <;>
    (simp only [isFreq, dataFreq, markerOf, baseOf, stepOf, RANGE,
       decide_eq_false_iff_not]
     rw [abs_sub_lt_iff]
     rintro ⟨h1, h2⟩
     linarith)

/-- A printable character's data tone matches neither marker during
the idle/wait scan. -/
theorem detectMode_data (mo : ModeName) (c : Char)
    (h32 : 32 ≤ c.toNat) (h126 : c.toNat ≤ 126) :
    detectMode (dataFreq mo c) = none := by
  simp [detectMode, isFreq_data_marker mo .AUDIBLE c h32 h126,
    isFreq_data_marker mo .STEALTH c h32 h126]

/-- Decoding the exact data tone of a character recovers its code. -/
theorem estimateChar_data (mo : ModeName) (c : Char) :
    estimateChar mo (dataFreq mo c) = (c.toNat : ℤ) := by
  have hstep : stepOf mo ≠ 0 := by cases mo <;> norm_num [stepOf]
  simp only [estimateChar, dataFreq, add_sub_cancel_left]
  rw [mul_div_cancel_right₀ _ hstep]
  simp

/-- The exact data tone lies strictly within half a step of its own
center frequency. -/
theorem tight_data (mo : ModeName) (c : Char) :
    |dataFreq mo c - (baseOf mo
      + ((c.toNat : ℤ) : ℚ) * stepOf mo)| < stepOf mo / 2 := by
  have : dataFreq mo c = baseOf mo + ((c.toNat : ℤ) : ℚ) * stepOf mo := by
    simp [dataFreq]
  rw [this, sub_self, abs_zero]
  cases mo <;> norm_num [stepOf]

/-- Character code round-trip through the estimate. -/
theorem char_of_estimate (c : Char) :
    Char.ofNat ((c.toNat : ℤ)).toNat = c := by
  rw [Int.toNat_natCast, Char.ofNat_toNat]

/-! ## Decoder invariants along a quantized transmission -/

/-- Invariant while scanning for a marker (`IDLE`/`WAIT_MARKER`,
counter zeroed), with buffer `b`, at constant sample time `t0`. -/
structure ScanOk (d : Decoder) (b : List Char) (t0 : ℕ) : Prop where
  hstate : d.state = DSt.IDLE ∨ d.state = DSt.WAIT_MARKER
  hbuf : d.buffer = b
  hfr : d.consecutiveFrames = 0
  hlvr : d.lastValidRead = t0
  hlcd : d.lastCharDecoded = t0
  hst : d.silenceTimer = none ∨ d.silenceTimer = some t0

/-- Invariant after one confirming marker frame: mode locked,
counter at one. -/
structure ScanMid (mo : ModeName) (d : Decoder) (b : List Char)
    (t0 : ℕ) : Prop where
  hstate : d.state = DSt.IDLE ∨ d.state = DSt.WAIT_MARKER
  hbuf : d.buffer = b
  hfr : d.consecutiveFrames = 1
  hmode : d.activeMode = mo
  hlvr : d.lastValidRead = t0
  hlcd : d.lastCharDecoded = t0
  hst : d.silenceTimer = none ∨ d.silenceTimer = some t0

/-- Invariant in `READ_CHAR` with the counter at `k` and no repeat
guard armed. -/
structure ReadOkN (mo : ModeName) (d : Decoder) (b : List Char)
    (t0 : ℕ) (k : ℕ) : Prop where
  hstate : d.state = DSt.READ_CHAR
  hbuf : d.buffer = b
  hfr : d.consecutiveFrames = k
  hldc : d.lastDetectedChar = none
  hmode : d.activeMode = mo
  hlvr : d.lastValidRead = t0
  hlcd : d.lastCharDecoded = t0
  hst : d.silenceTimer = none ∨ d.silenceTimer = some t0

/-- Invariant in `WAIT_MARKER` right after decoding character `c`. -/
structure WaitOk (mo : ModeName) (c : Char) (d : Decoder)
    (b : List Char) (t0 : ℕ) : Prop where
  hstate : d.state = DSt.WAIT_MARKER
  hbuf : d.buffer = b
  hfr : d.consecutiveFrames = 0
  hldc : d.lastDetectedChar = some c
  hmode : d.activeMode = mo
  hlvr : d.lastValidRead = t0
  hlcd : d.lastCharDecoded = t0
  hst : d.silenceTimer = none ∨ d.silenceTimer = some t0

/-- A decoded-character invariant is in particular a scan invariant. -/
theorem WaitOk.toScanOk {mo : ModeName} {c : Char} {d : Decoder}
    {b : List Char} {t0 : ℕ} (h : WaitOk mo c d b t0) : ScanOk d b t0 :=
  ⟨Or.inr h.hstate, h.hbuf, h.hfr, h.hlvr, h.hlcd, h.hst⟩

/-- With all decoder timestamps at the sample time, none of the
three timeout branches can fire. -/
theorem t0_no_timeout (d : Decoder) (t0 : ℕ)
    (hlcd : d.lastCharDecoded = t0) (hlvr : d.lastValidRead = t0)
    (hst : d.silenceTimer = none ∨ d.silenceTimer = some t0) :
    ¬(0 < d.buffer.length ∧
      NO_PROGRESS_TIMEOUT < t0 - d.lastCharDecoded) ∧
    ¬(0 < d.buffer.length ∧ silenceExpired d.silenceTimer t0 = true) ∧
    ¬(d.state ≠ DSt.IDLE ∧ d.buffer.length = 0 ∧
      IDLE_TIMEOUT < t0 - d.lastValidRead) := by
  refine ⟨?_, ?_, ?_⟩
  · rintro ⟨-, h⟩
    rw [hlcd] at h
    omega
  · rintro ⟨-, h⟩
    rcases hst with h2 | h2 <;> rw [h2] at h
    · simp [silenceExpired] at h
    · simp only [silenceExpired, decide_eq_true_eq] at h
      omega
  · rintro ⟨-, -, h⟩
    rw [hlvr] at h
    omega

/-- At constant time `t0`, a strong sample in a scan state is
handled by `scanStep` on the timer-cleared decoder. -/
theorem hfi_scan_dispatch (d : Decoder) (t0 : ℕ) (freq amp : ℚ)
    (hamp : THRESHOLD ≤ amp)
    (hstate : d.state = DSt.IDLE ∨ d.state = DSt.WAIT_MARKER)
    (hlcd : d.lastCharDecoded = t0) (hlvr : d.lastValidRead = t0)
    (hst : d.silenceTimer = none ∨ d.silenceTimer = some t0) :
    handleFrequencyInput d t0 freq amp
      = (scanStep (if 0 < d.buffer.length then { d with silenceTimer := none }
          else d) t0 freq, StepEvent.quiet) := by
  obtain ⟨hA, hB, hC⟩ := t0_no_timeout d t0 hlcd hlvr hst
  rw [hfi_strong d t0 freq amp hA hB hC hamp]
  rcases hstate with h | h <;>
    rw [show (if 0 < d.buffer.length then { d with silenceTimer := none }
      else d).state = _ from (clearTimer_fields d).1.trans h]

/-- At constant time `t0`, a strong sample in `READ_CHAR` is handled
by `readStep` on the timer-cleared decoder. -/
theorem hfi_read_dispatch (d : Decoder) (t0 : ℕ) (freq amp : ℚ)
    (hamp : THRESHOLD ≤ amp)
    (hstate : d.state = DSt.READ_CHAR)
    (hlcd : d.lastCharDecoded = t0) (hlvr : d.lastValidRead = t0)
    (hst : d.silenceTimer = none ∨ d.silenceTimer = some t0) :
    handleFrequencyInput d t0 freq amp
      = (readStep (if 0 < d.buffer.length then { d with silenceTimer := none }
          else d) t0 freq, StepEvent.quiet) := by
  obtain ⟨hA, hB, hC⟩ := t0_no_timeout d t0 hlcd hlvr hst
  rw [hfi_strong d t0 freq amp hA hB hC hamp,
    show (if 0 < d.buffer.length then { d with silenceTimer := none }
      else d).state = _ from (clearTimer_fields d).1.trans hstate]

/-- Timer clearing preserves the none-or-`t0` timer invariant. -/
theorem clearTimer_st (d : Decoder) (t0 : ℕ)
    (h : d.silenceTimer = none ∨ d.silenceTimer = some t0) :
    (if 0 < d.buffer.length then { d with silenceTimer := none }
      else d).silenceTimer = none ∨
    (if 0 < d.buffer.length then { d with silenceTimer := none }
      else d).silenceTimer = some t0 := by
  by_cases hb : 0 < d.buffer.length
  · rw [if_pos hb]
    exact Or.inl rfl
  · rw [if_neg hb]
    exact h

/-- One confirming marker frame from the scan invariant: the mode
locks and the counter goes to one. -/
theorem step_scan_first (mo : ModeName) (d : Decoder) (b : List Char)
    (t0 : ℕ) (amp : ℚ) (hamp : THRESHOLD ≤ amp) (hinv : ScanOk d b t0) :
    ∃ d', handleFrequencyInput d t0 (markerOf mo) amp
        = (d', StepEvent.quiet) ∧ ScanMid mo d' b t0 := by
  obtain ⟨hes, heb, hef, hea, hel, helv, helc⟩ := clearTimer_fields d
  have hEst := clearTimer_st d t0 hinv.hst
  rw [hfi_scan_dispatch d t0 _ amp hamp hinv.hstate hinv.hlcd
    hinv.hlvr hinv.hst]
  set E := if 0 < d.buffer.length then { d with silenceTimer := none }
    else d with hE
  have hEfr : E.consecutiveFrames = 0 := hef.trans hinv.hfr
  have heq : scanStep E t0 (markerOf mo)
      = { E with activeMode := mo,
                 consecutiveFrames := E.consecutiveFrames + 1 } := by
    unfold scanStep
    rw [detectMode_marker]
    dsimp only
    rw [if_neg (by simp [hEfr])]
  refine ⟨_, rfl, ?_⟩
  rw [heq]
  exact ⟨hes.symm ▸ hinv.hstate, heb.trans hinv.hbuf,
    by simp [hEfr], rfl, helv.trans hinv.hlvr, helc.trans hinv.hlcd, hEst⟩

/-- The second confirming marker frame: transition to `READ_CHAR`
with the counter reset and the repeat guard disarmed. -/
theorem step_scan_lock (mo : ModeName) (d : Decoder) (b : List Char)
    (t0 : ℕ) (amp : ℚ) (hamp : THRESHOLD ≤ amp)
    (hinv : ScanMid mo d b t0) :
    ∃ d', handleFrequencyInput d t0 (markerOf mo) amp
        = (d', StepEvent.quiet) ∧ ReadOkN mo d' b t0 0 := by
  obtain ⟨hes, heb, hef, hea, hel, helv, helc⟩ := clearTimer_fields d
  have hEst := clearTimer_st d t0 hinv.hst
  rw [hfi_scan_dispatch d t0 _ amp hamp hinv.hstate hinv.hlcd
    hinv.hlvr hinv.hst]
  set E := if 0 < d.buffer.length then { d with silenceTimer := none }
    else d with hE
  have hEfr : E.consecutiveFrames = 1 := hef.trans hinv.hfr
  have hEbuf : E.buffer = b := heb.trans hinv.hbuf
  unfold scanStep
  rw [detectMode_marker]
  dsimp only
  rw [if_pos (by simp [hEfr])]
  by_cases hb : 0 < E.buffer.length
  · rw [if_pos (by simpa using hb)]
    exact ⟨_, rfl, rfl, hEbuf, rfl, rfl, rfl, rfl,
      helc.trans hinv.hlcd, Or.inr rfl⟩
  · rw [if_neg (by simpa using hb)]
    exact ⟨_, rfl, rfl, hEbuf, rfl, rfl, rfl, rfl,
      helc.trans hinv.hlcd, hEst⟩

/-- A marker frame while in `READ_CHAR` is expected and ignored:
only the counter resets. -/
theorem step_read_marker (mo : ModeName) (d : Decoder) (b : List Char)
    (t0 k : ℕ) (amp : ℚ) (hamp : THRESHOLD ≤ amp)
    (hinv : ReadOkN mo d b t0 k) :
    ∃ d', handleFrequencyInput d t0 (markerOf mo) amp
        = (d', StepEvent.quiet) ∧ ReadOkN mo d' b t0 0 := by
  obtain ⟨hes, heb, hef, hea, hel, helv, helc⟩ := clearTimer_fields d
  have hEst := clearTimer_st d t0 hinv.hst
  rw [hfi_read_dispatch d t0 _ amp hamp hinv.hstate hinv.hlcd
    hinv.hlvr hinv.hst]
  set E := if 0 < d.buffer.length then { d with silenceTimer := none }
    else d with hE
  have heq : readStep E t0 (markerOf mo)
      = { E with consecutiveFrames := 0 } := by
    unfold readStep
    rw [if_pos (by rw [hea, hinv.hmode]; exact isFreq_self _)]
  refine ⟨_, rfl, ?_⟩
  rw [heq]
  exact ⟨hes.trans hinv.hstate, heb.trans hinv.hbuf, rfl,
    hel.trans hinv.hldc, hea.trans hinv.hmode, helv.trans hinv.hlvr,
    helc.trans hinv.hlcd, hEst⟩

/-- A data frame below the debounce threshold: the candidate is
accepted and the counter increments. -/
theorem step_read_data_inc (mo : ModeName) (c : Char) (d : Decoder)
    (b : List Char) (t0 k : ℕ) (amp : ℚ) (hamp : THRESHOLD ≤ amp)
    (hc32 : 32 ≤ c.toNat) (hc126 : c.toNat ≤ 126)
    (hk : k + 1 < 3) (hinv : ReadOkN mo d b t0 k) :
    ∃ d', handleFrequencyInput d t0 (dataFreq mo c) amp
        = (d', StepEvent.quiet) ∧ ReadOkN mo d' b t0 (k + 1) := by
  obtain ⟨hes, heb, hef, hea, hel, helv, helc⟩ := clearTimer_fields d
  have hEst := clearTimer_st d t0 hinv.hst
  rw [hfi_read_dispatch d t0 _ amp hamp hinv.hstate hinv.hlcd
    hinv.hlvr hinv.hst]
  set E := if 0 < d.buffer.length then { d with silenceTimer := none }
    else d with hE
  have hEmode : E.activeMode = mo := hea.trans hinv.hmode
  have hEfr : E.consecutiveFrames = k := hef.trans hinv.hfr
  have hspec := readStep_spec E t0 (dataFreq mo c)
    (by rw [hEmode]; exact isFreq_data_marker mo mo c hc32 hc126)
  rw [hEmode, estimateChar_data] at hspec
  have heq := hspec.2.1
    ⟨by exact_mod_cast hc32, by exact_mod_cast hc126⟩
    (tight_data mo c) (by rw [hEfr]; exact hk)
  refine ⟨_, rfl, ?_⟩
  rw [heq]
  exact ⟨hes.trans hinv.hstate, heb.trans hinv.hbuf, by rw [hEfr],
    hel.trans hinv.hldc, rfl, helv.trans hinv.hlvr,
    helc.trans hinv.hlcd, hEst⟩

/-- The third consecutive data frame: the character is decoded and
appended to the buffer, and the decoder waits for the next marker. -/
theorem step_read_decode (mo : ModeName) (c : Char) (d : Decoder)
    (b : List Char) (t0 : ℕ) (amp : ℚ) (hamp : THRESHOLD ≤ amp)
    (hc32 : 32 ≤ c.toNat) (hc126 : c.toNat ≤ 126)
    (hinv : ReadOkN mo d b t0 2) :
    ∃ d', handleFrequencyInput d t0 (dataFreq mo c) amp
        = (d', StepEvent.quiet) ∧ WaitOk mo c d' (b ++ [c]) t0 := by
  obtain ⟨hes, heb, hef, hea, hel, helv, helc⟩ := clearTimer_fields d
  rw [hfi_read_dispatch d t0 _ amp hamp hinv.hstate hinv.hlcd
    hinv.hlvr hinv.hst]
  set E := if 0 < d.buffer.length then { d with silenceTimer := none }
    else d with hE
  have hEmode : E.activeMode = mo := hea.trans hinv.hmode
  have hEfr : E.consecutiveFrames = 2 := hef.trans hinv.hfr
  have hEldc : E.lastDetectedChar = none := hel.trans hinv.hldc
  have hspec := readStep_spec E t0 (dataFreq mo c)
    (by rw [hEmode]; exact isFreq_data_marker mo mo c hc32 hc126)
  rw [hEmode, estimateChar_data, char_of_estimate] at hspec
  have heq := hspec.2.2
    ⟨by exact_mod_cast hc32, by exact_mod_cast hc126⟩
    (tight_data mo c) (by rw [hEfr]) (by rw [hEldc]; simp)
  refine ⟨_, rfl, ?_⟩
  rw [heq]
  exact ⟨rfl, by rw [heb, hinv.hbuf], rfl, rfl, rfl, rfl, rfl,
    Or.inr rfl⟩

/-- Extra data frames after the decode: the repeated tone matches no
marker, so the counter just resets and nothing else changes. -/
theorem step_wait_data (mo : ModeName) (c c' : Char) (d : Decoder)
    (b : List Char) (t0 : ℕ) (amp : ℚ) (hamp : THRESHOLD ≤ amp)
    (hc32 : 32 ≤ c'.toNat) (hc126 : c'.toNat ≤ 126)
    (hinv : WaitOk mo c d b t0) :
    ∃ d', handleFrequencyInput d t0 (dataFreq mo c') amp
        = (d', StepEvent.quiet) ∧ WaitOk mo c d' b t0 := by
  obtain ⟨hes, heb, hef, hea, hel, helv, helc⟩ := clearTimer_fields d
  have hEst := clearTimer_st d t0 hinv.hst
  rw [hfi_scan_dispatch d t0 _ amp hamp (Or.inr hinv.hstate) hinv.hlcd
    hinv.hlvr hinv.hst]
  set E := if 0 < d.buffer.length then { d with silenceTimer := none }
    else d with hE
  have heq : scanStep E t0 (dataFreq mo c')
      = { E with consecutiveFrames := 0 } := by
    unfold scanStep
    rw [detectMode_data mo c' hc32 hc126]
  refine ⟨_, rfl, ?_⟩
  rw [heq]
  exact ⟨hes.trans hinv.hstate, heb.trans hinv.hbuf, rfl,
    hel.trans hinv.hldc, hea.trans hinv.hmode, helv.trans hinv.hlvr,
    helc.trans hinv.hlcd, hEst⟩

/-! ## Station-level runs over sample streams -/

/-- A quiet decoder step only replaces the station's decoder. -/
theorem stationStep_quiet (st : Station) (now : ℕ) (freq amp : ℚ)
    (fid : List Char) (dl : ℕ) (d' : Decoder)
    (h : handleFrequencyInput st.dec now freq amp = (d', StepEvent.quiet)) :
    stationStep st now freq amp fid dl = ({ st with dec := d' }, StepEvent.quiet) := by
  unfold stationStep
  rw [h]

/-- The event of a station step is the event of the decoder step. -/
theorem stationStep_snd (st : Station) (now : ℕ) (freq amp : ℚ)
    (fid : List Char) (dl : ℕ) :
    (stationStep st now freq amp fid dl).2
      = (handleFrequencyInput st.dec now freq amp).2 := by
  unfold stationStep
  rcases h : handleFrequencyInput st.dec now freq amp with ⟨d', ev⟩
  cases ev <;> simp

/-- Processing a concatenation of sample streams is sequential. -/
theorem processSamples_append (fid : List Char) (dl : ℕ) (st : Station)
    (l1 l2 : List (ℕ × ℚ × ℚ)) :
    processSamples fid dl st (l1 ++ l2)
      = processSamples fid dl (processSamples fid dl st l1) l2 := by
  induction l1 generalizing st with
  | nil => rfl
  | cons x rest ih =>
    obtain ⟨t, f, a⟩ := x
    simp only [List.cons_append, processSamples]
    exact ih _

/-- The per-character shape of the quantized transmission of a text:
for each character, its marker tone held for the first count and its
data tone held for the second count, all at time `t0` and amplitude
`amp`. -/
def charStream (mo : ModeName) (t0 : ℕ) (amp : ℚ) :
    List Char → List (ℕ × ℕ) → List (ℕ × ℚ × ℚ)
  | c :: s', p :: cs' =>
      List.replicate p.1 (t0, markerOf mo, amp)
        ++ List.replicate p.2 (t0, dataFreq mo c, amp)
        ++ charStream mo t0 amp s' cs'
  | _, _ => []

/-- Quantizing the Modulator's tone schedule with per-character
(marker, data) hold counts yields exactly the per-character stream. -/
theorem quantize_toneSchedule (mo : ModeName) (q : ℚ) (t0 : ℕ)
    (amp : ℚ) (s : List Char) (cs : List (ℕ × ℕ))
    (hlen : cs.length = s.length) :
    quantizeSchedule (toneSchedule mo q s) (interleaveCounts cs) t0 amp
      = charStream mo t0 amp s cs := by
  unfold toneSchedule
  generalize q + 1 / 10 = q0
  induction s generalizing q0 cs with
  | nil =>
    cases cs with
    | nil => simp [scheduleFrom, quantizeSchedule, charStream, interleaveCounts]
    | cons p cs' => simp at hlen
  | cons c s' ih =>
    cases cs with
    | nil => simp at hlen
    | cons p cs' =>
      obtain ⟨mk, dk⟩ := p
      have hlen' : cs'.length = s'.length := by simpa using hlen
      simp only [scheduleFrom, interleaveCounts, quantizeSchedule,
        List.zip_cons_cons, List.flatMap_cons, charStream]
      rw [List.append_assoc]
      congr 1
      congr 1
      exact ih cs' hlen' _

/-- Any run of extra marker frames keeps the decoder in `READ_CHAR`
waiting for the data tone. -/
theorem run_read_marker_extra (mo : ModeName) (st : Station)
    (b : List Char) (t0 : ℕ) (amp : ℚ) (fid : List Char) (dl : ℕ)
    (hamp : THRESHOLD ≤ amp) (j : ℕ) (hinv : ReadOkN mo st.dec b t0 0) :
    ∃ d', processSamples fid dl st
        (List.replicate j (t0, markerOf mo, amp)) = { st with dec := d' } ∧
      ReadOkN mo d' b t0 0 := by
  induction j generalizing st with
  | zero => exact ⟨st.dec, rfl, hinv⟩
  | succ j ih =>
    obtain ⟨d1, hstep, hinv1⟩ := step_read_marker mo st.dec b t0 0 amp hamp hinv
    rw [List.replicate_succ]
    simp only [processSamples]
    rw [stationStep_quiet st t0 _ amp fid dl d1 hstep]
    obtain ⟨d', hrun, hinv'⟩ := ih { st with dec := d1 } hinv1
    exact ⟨d', hrun, hinv'⟩

/-- A marker tone held for at least the two-frame debounce threshold
locks the mode and moves the decoder into `READ_CHAR`. -/
theorem run_marker (mo : ModeName) (st : Station) (b : List Char)
    (t0 : ℕ) (amp : ℚ) (fid : List Char) (dl : ℕ)
    (hamp : THRESHOLD ≤ amp) (mk : ℕ) (hmk : 2 ≤ mk)
    (hinv : ScanOk st.dec b t0) :
    ∃ d', processSamples fid dl st
        (List.replicate mk (t0, markerOf mo, amp)) = { st with dec := d' } ∧
      ReadOkN mo d' b t0 0 := by
  obtain ⟨j, rfl⟩ : ∃ j, mk = 2 + j := ⟨mk - 2, by omega⟩
  obtain ⟨d1, hstep1, hinv1⟩ := step_scan_first mo st.dec b t0 amp hamp hinv
  obtain ⟨d2, hstep2, hinv2⟩ :=
    step_scan_lock mo d1 b t0 amp hamp hinv1
  rw [show 2 + j = (j + 1) + 1 by omega, List.replicate_succ,
    List.replicate_succ]
  simp only [processSamples]
  rw [stationStep_quiet st t0 _ amp fid dl d1 hstep1,
    stationStep_quiet { st with dec := d1 } t0 _ amp fid dl d2 hstep2]
  exact run_read_marker_extra mo { st with dec := d2 } b t0 amp fid dl
    hamp j hinv2

/-- Any run of extra data frames after the decode changes nothing. -/
theorem run_wait_data_extra (mo : ModeName) (c : Char) (st : Station)
    (b : List Char) (t0 : ℕ) (amp : ℚ) (fid : List Char) (dl : ℕ)
    (hamp : THRESHOLD ≤ amp) (hc32 : 32 ≤ c.toNat) (hc126 : c.toNat ≤ 126)
    (j : ℕ) (hinv : WaitOk mo c st.dec b t0) :
    ∃ d', processSamples fid dl st
        (List.replicate j (t0, dataFreq mo c, amp)) = { st with dec := d' } ∧
      WaitOk mo c d' b t0 := by
  induction j generalizing st with
  | zero => exact ⟨st.dec, rfl, hinv⟩
  | succ j ih =>
    obtain ⟨d1, hstep, hinv1⟩ :=
      step_wait_data mo c c st.dec b t0 amp hamp hc32 hc126 hinv
    rw [List.replicate_succ]
    simp only [processSamples]
    rw [stationStep_quiet st t0 _ amp fid dl d1 hstep]
    exact ih { st with dec := d1 } hinv1

/-- A data tone held for at least the three-frame debounce threshold
decodes its character exactly once. -/
theorem run_data (mo : ModeName) (c : Char) (st : Station)
    (b : List Char) (t0 : ℕ) (amp : ℚ) (fid : List Char) (dl : ℕ)
    (hamp : THRESHOLD ≤ amp) (hc32 : 32 ≤ c.toNat) (hc126 : c.toNat ≤ 126)
    (dk : ℕ) (hdk : 3 ≤ dk) (hinv : ReadOkN mo st.dec b t0 0) :
    ∃ d', processSamples fid dl st
        (List.replicate dk (t0, dataFreq mo c, amp)) = { st with dec := d' } ∧
      WaitOk mo c d' (b ++ [c]) t0 := by
  obtain ⟨j, rfl⟩ : ∃ j, dk = 3 + j := ⟨dk - 3, by omega⟩
  obtain ⟨d1, hstep1, hinv1⟩ :=
    step_read_data_inc mo c st.dec b t0 0 amp hamp hc32 hc126
      (by omega) hinv
  obtain ⟨d2, hstep2, hinv2⟩ :=
    step_read_data_inc mo c d1 b t0 1 amp hamp hc32 hc126
      (by omega) hinv1
  obtain ⟨d3, hstep3, hinv3⟩ :=
    step_read_decode mo c d2 b t0 amp hamp hc32 hc126 hinv2
  rw [show 3 + j = ((j + 1) + 1) + 1 by omega, List.replicate_succ,
    List.replicate_succ, List.replicate_succ]
  simp only [processSamples]
  rw [stationStep_quiet st t0 _ amp fid dl d1 hstep1,
    stationStep_quiet { st with dec := d1 } t0 _ amp fid dl d2 hstep2,
    stationStep_quiet { st with dec := d2 } t0 _ amp fid dl d3 hstep3]
  exact run_wait_data_extra mo c { st with dec := d3 } (b ++ [c]) t0 amp
    fid dl hamp hc32 hc126 j hinv3

/-- Processing the whole quantized transmission appends the text to
the decoder's buffer, character by character. -/
theorem run_stream (mo : ModeName) (st : Station) (b : List Char)
    (t0 : ℕ) (amp : ℚ) (fid : List Char) (dl : ℕ)
    (hamp : THRESHOLD ≤ amp) (s : List Char) (cs : List (ℕ × ℕ))
    (hpr : ∀ c ∈ s, 32 ≤ c.toNat ∧ c.toNat ≤ 126)
    (hlen : cs.length = s.length)
    (hcs : ∀ p ∈ cs, 2 ≤ p.1 ∧ 3 ≤ p.2)
    (hinv : ScanOk st.dec b t0) :
    ∃ d', processSamples fid dl st (charStream mo t0 amp s cs)
        = { st with dec := d' } ∧ ScanOk d' (b ++ s) t0 := by
  induction s generalizing st b cs with
  | nil =>
    cases cs with
    | nil => exact ⟨st.dec, rfl, by simpa using hinv⟩
    | cons p cs' => simp at hlen
  | cons c s' ih =>
    cases cs with
    | nil => simp at hlen
    | cons p cs' =>
      have hlen' : cs'.length = s'.length := by simpa using hlen
      obtain ⟨hmk, hdk⟩ := hcs p (List.mem_cons_self p cs')
      obtain ⟨hc32, hc126⟩ := hpr c (List.mem_cons_self c s')
      simp only [charStream]
      rw [processSamples_append, processSamples_append]
      obtain ⟨d1, hrun1, hinv1⟩ :=
        run_marker mo st b t0 amp fid dl hamp p.1 hmk hinv
      rw [hrun1]
      obtain ⟨d2, hrun2, hinv2⟩ :=
        run_data mo c { st with dec := d1 } b t0 amp fid dl hamp
          hc32 hc126 p.2 hdk hinv1
      rw [hrun2]
      obtain ⟨d3, hrun3, hinv3⟩ :=
        ih { st with dec := d2 } (b ++ [c]) cs'
          (fun x hx => hpr x (List.mem_cons_of_mem c hx)) hlen'
          (fun q hq => hcs q (List.mem_cons_of_mem p hq))
          hinv2.toScanOk
      refine ⟨d3, hrun3, ?_⟩
      rw [List.append_assoc] at hinv3
      simpa using hinv3

/-- A silent tick right after the transmission: on a non-empty
buffer the silence timer is armed (or stays armed) at `t0`. -/
theorem silent_step (d : Decoder) (b : List Char) (t0 : ℕ)
    (hinv : ScanOk d b t0) (hb : b ≠ []) :
    ∃ d', handleFrequencyInput d t0 0 0 = (d', StepEvent.quiet) ∧
      d'.buffer = b ∧ d'.silenceTimer = some t0 ∧
      d'.lastCharDecoded = t0 := by
  obtain ⟨hA, hB, hC⟩ := t0_no_timeout d t0 hinv.hlcd hinv.hlvr hinv.hst
  have hb' : 0 < d.buffer.length := by
    rw [hinv.hbuf]
    exact List.length_pos.mpr hb
  have hamp : (0 : ℚ) < THRESHOLD := by norm_num [THRESHOLD]
  have hstep : handleFrequencyInput d t0 0 0 = (noiseGate d t0, StepEvent.quiet) := by
    unfold handleFrequencyInput
    rw [if_neg hA, if_neg hB, if_neg hC, if_pos hamp]
  have hbl : 0 < b.length := List.length_pos.mpr hb
  rcases hinv.hst with hto | hto
  · refine ⟨_, hstep, ?_, ?_, ?_⟩ <;>
      simp [noiseGate, hb', hto, hinv.hbuf, hinv.hlcd, hbl]
  · refine ⟨_, hstep, ?_, ?_, ?_⟩ <;>
      simp [noiseGate, hb', hto, hinv.hbuf, hinv.hlcd, hbl]

/-- One sub-threshold tick, `SILENCE_TIMEOUT + 1` milliseconds
later, fires the silence-timeout commit. -/
theorem commit_trigger (d : Decoder) (t0 : ℕ)
    (hb : 0 < d.buffer.length) (hst : d.silenceTimer = some t0)
    (hlcd : d.lastCharDecoded = t0) :
    (handleFrequencyInput d (t0 + SILENCE_TIMEOUT + 1) 0 0).2
      = StepEvent.commitSilence := by
  have hA : ¬(0 < d.buffer.length ∧ NO_PROGRESS_TIMEOUT
      < (t0 + SILENCE_TIMEOUT + 1) - d.lastCharDecoded) := by
    rintro ⟨-, h⟩
    rw [hlcd] at h
    simp only [NO_PROGRESS_TIMEOUT, SILENCE_TIMEOUT] at h
    omega
  have hB : 0 < d.buffer.length ∧
      silenceExpired d.silenceTimer (t0 + SILENCE_TIMEOUT + 1) = true := by
    refine ⟨hb, ?_⟩
    rw [hst]
    simp only [silenceExpired, decide_eq_true_eq, SILENCE_TIMEOUT]
    omega
  unfold handleFrequencyInput
  rw [if_neg hA, if_pos hB]

/-! ## Theorems -/

/-- C1.  Round-trip: for every printable-ASCII string `s` and every
mode, feeding the Demodulator the per-tick sample stream obtained by
quantizing the Modulator's tone schedule for `s` — every marker tone
held for at least the two-tick debounce threshold and every data
tone for at least the three-tick threshold — followed by silence
long enough to trigger a commit, leaves the decoder's accumulated
buffer at commit time equal to `s` exactly (the commit fires through
the silence path on the first tick past `SILENCE_TIMEOUT`). -/
theorem c1_round_trip (mo : ModeName) (s : List Char)
    (cs : List (ℕ × ℕ)) (t0 : ℕ) (q amp : ℚ) (fid : List Char) (dl : ℕ)
    (hpr : ∀ c ∈ s, 32 ≤ c.toNat ∧ c.toNat ≤ 126)
    (hlen : cs.length = s.length)
    (hcs : ∀ p ∈ cs, 2 ≤ p.1 ∧ 3 ≤ p.2)
    (hamp : THRESHOLD ≤ amp)
    (hne : s ≠ []) :
    (processSamples fid dl (initStation t0)
        (quantizeSchedule (toneSchedule mo q s) (interleaveCounts cs) t0 amp
          ++ [(t0, 0, 0)])).dec.buffer = s ∧
    (stationStep (processSamples fid dl (initStation t0)
        (quantizeSchedule (toneSchedule mo q s) (interleaveCounts cs) t0 amp
          ++ [(t0, 0, 0)]))
      (t0 + SILENCE_TIMEOUT + 1) 0 0 fid dl).2
      = StepEvent.commitSilence := by
  rw [quantize_toneSchedule mo q t0 amp s cs hlen]
  have hinv0 : ScanOk (initStation t0).dec [] t0 :=
    ⟨Or.inl rfl, rfl, rfl, rfl, rfl, Or.inl rfl⟩
  obtain ⟨d1, hrun, hinv1⟩ := run_stream mo (initStation t0) [] t0 amp
    fid dl hamp s cs hpr hlen hcs hinv0
  rw [processSamples_append, hrun]
  obtain ⟨d2, hstep2, hbuf2, hst2, hlcd2⟩ :=
    silent_step d1 ([] ++ s) t0 hinv1 (by simpa using hne)
  simp only [processSamples]
  rw [stationStep_quiet { initStation t0 with dec := d1 } t0 0 0
    fid dl d2 hstep2]
  constructor
  · show d2.buffer = s
    rw [hbuf2]
    simp
  · rw [stationStep_snd]
    refine commit_trigger d2 t0 ?_ hst2 hlcd2
    rw [hbuf2]
    simpa using List.length_pos.mpr hne

/-- C1 witness: the string `"HI"` in `AUDIBLE` mode, each marker
held 2 ticks and each data tone 3 ticks at amplitude 128, then
silence: the buffer holds `"HI"` when the silence commit fires. -/
theorem c1_round_trip_witness :
    (processSamples ['Z'] 0 (initStation 0)
        (quantizeSchedule (toneSchedule ModeName.AUDIBLE 0 ['H', 'I'])
          (interleaveCounts [(2, 3), (2, 3)]) 0 128
          ++ [(0, 0, 0)])).dec.buffer = ['H', 'I'] ∧
    (stationStep (processSamples ['Z'] 0 (initStation 0)
        (quantizeSchedule (toneSchedule ModeName.AUDIBLE 0 ['H', 'I'])
          (interleaveCounts [(2, 3), (2, 3)]) 0 128
          ++ [(0, 0, 0)]))
      (0 + SILENCE_TIMEOUT + 1) 0 0 ['Z'] 0).2
      = StepEvent.commitSilence :=
  c1_round_trip ModeName.AUDIBLE ['H', 'I'] [(2, 3), (2, 3)] 0 0 128
    ['Z'] 0 (by decide) (by decide) (by decide)
    (by norm_num [THRESHOLD]) (by decide)

/-- C9.  Half-duplex decoder hold: on an audio tick that arrives
while `isSendingRef.current` is set (which covers the whole
transmission and the 500 ms guard interval after it, since the flag
is only cleared by the delayed timeout), the decoder makes no state
transition: the debounce counter is zeroed and every other decoder
field, as well as the message list, the seen-id set and the relay
queue, is left unchanged. -/
theorem c9_half_duplex_hold (st : Station) (now : ℕ) (freq amp : ℚ)
    (fid : List Char) (delay : ℕ) :
    (monitorTick st true now freq amp fid delay).1.dec.consecutiveFrames = 0 ∧
    (monitorTick st true now freq amp fid delay).1.dec.state = st.dec.state ∧
    (monitorTick st true now freq amp fid delay).1.dec.buffer = st.dec.buffer ∧
    (monitorTick st true now freq amp fid delay).1.dec.lastDetectedChar
      = st.dec.lastDetectedChar ∧
    (monitorTick st true now freq amp fid delay).1.dec.silenceTimer
      = st.dec.silenceTimer ∧
    (monitorTick st true now freq amp fid delay).1.dec.lastValidRead
      = st.dec.lastValidRead ∧
    (monitorTick st true now freq amp fid delay).1.dec.lastCharDecoded
      = st.dec.lastCharDecoded ∧
    (monitorTick st true now freq amp fid delay).1.dec.activeMode
      = st.dec.activeMode ∧
    (monitorTick st true now freq amp fid delay).1.messages = st.messages ∧
    (monitorTick st true now freq amp fid delay).1.seenIds = st.seenIds ∧
    (monitorTick st true now freq amp fid delay).1.relayQueue = st.relayQueue ∧
    (monitorTick st true now freq amp fid delay).2 = StepEvent.quiet := by
  simp [monitorTick]

/-- What `commitReceivedMessage` does to the decoder record, on
every path: buffer, last detected character, state, silence timer
and `lastCharDecoded` are reset, while the debounce counter and
`lastValidRead` keep their previous values. -/
theorem commit_dec_spec (st : Station) (now : ℕ)
    (fid : List Char) (delay : ℕ) :
    (commitReceivedMessage st now fid delay).dec.buffer = [] ∧
    (commitReceivedMessage st now fid delay).dec.lastDetectedChar = none ∧
    (commitReceivedMessage st now fid delay).dec.state = DSt.IDLE ∧
    (commitReceivedMessage st now fid delay).dec.silenceTimer = none ∧
    (commitReceivedMessage st now fid delay).dec.lastCharDecoded = now ∧
    (commitReceivedMessage st now fid delay).dec.consecutiveFrames
      = st.dec.consecutiveFrames ∧
    (commitReceivedMessage st now fid delay).dec.lastValidRead
      = st.dec.lastValidRead := by
  unfold commitReceivedMessage
  dsimp only
  split
  · split <;> simp
  · simp

/-- C6 (amended).  After every commit attempt the decoder's buffer,
last detected character, FSM state, silence timer and
`lastCharDecoded` are reset — but the debounce counter
(`consecutiveFrames`) and the `lastValidRead` timestamp keep their
previous values (and so does the locked mode). -/
theorem c6_commit_reset_partial (st : Station) (now : ℕ)
    (fid : List Char) (delay : ℕ) :
    (commitReceivedMessage st now fid delay).dec.buffer = [] ∧
    (commitReceivedMessage st now fid delay).dec.lastDetectedChar = none ∧
    (commitReceivedMessage st now fid delay).dec.state = DSt.IDLE ∧
    (commitReceivedMessage st now fid delay).dec.silenceTimer = none ∧
    (commitReceivedMessage st now fid delay).dec.lastCharDecoded = now ∧
    (commitReceivedMessage st now fid delay).dec.consecutiveFrames
      = st.dec.consecutiveFrames ∧
    (commitReceivedMessage st now fid delay).dec.lastValidRead
      = st.dec.lastValidRead :=
  commit_dec_spec st now fid delay

/-- C6 counterexample.  A station whose decoder holds buffer `"A"`
with debounce counter `7` and `lastValidRead = 5`: committing at
time `1000` leaves the counter at `7` and `lastValidRead` at `5`
instead of reinitializing them, so `DecoderState` is *not* fully
reset after a commit. -/
theorem c6_counterexample :
    ((commitReceivedMessage
        { dec := { initDecoder 0 with
                     buffer := ['A'], consecutiveFrames := 7,
                     lastValidRead := 5 }
          seenIds := [], messages := [], relayQueue := [] }
        1000 ['Q'] 3).dec.consecutiveFrames = 7 ∧
     (commitReceivedMessage
        { dec := { initDecoder 0 with
                     buffer := ['A'], consecutiveFrames := 7,
                     lastValidRead := 5 }
          seenIds := [], messages := [], relayQueue := [] }
        1000 ['Q'] 3).dec.lastValidRead = 5 ∧
     (7 : ℕ) ≠ 0 ∧ (5 : ℕ) ≠ 1000) := by
  decide

/-- C5.  Timeout ordering on a decoder holding partial content:
a silent gap (sub-threshold samples) whose first silent tick starts
the silence timer and which then exceeds `SILENCE_TIMEOUT` while
still shorter than the no-progress timeout commits via the silence
path, whereas a sustained above-threshold signal that has not
decoded a new character for more than `NO_PROGRESS_TIMEOUT` commits
via the stuck (no-progress) path. -/
theorem c5_timeout_ordering (d : Decoder) (now t1 t2 : ℕ) (freq amp : ℚ)
    (hbuf : 0 < d.buffer.length) :
    (d.silenceTimer = none →
     t1 - d.lastCharDecoded ≤ NO_PROGRESS_TIMEOUT →
     t2 - d.lastCharDecoded ≤ NO_PROGRESS_TIMEOUT →
     SILENCE_TIMEOUT < t2 - t1 →
     ∃ d1, handleFrequencyInput d t1 0 0 = (d1, StepEvent.quiet) ∧
           d1.silenceTimer = some t1 ∧ d1.buffer = d.buffer ∧
           (handleFrequencyInput d1 t2 0 0).2 = StepEvent.commitSilence) ∧
    (THRESHOLD ≤ amp →
     NO_PROGRESS_TIMEOUT < now - d.lastCharDecoded →
     handleFrequencyInput d now freq amp = (d, StepEvent.commitNoProgress)) := by
  constructor
  · intro hto h1 h2 hgap
    have hA : ¬(0 < d.buffer.length ∧
        NO_PROGRESS_TIMEOUT < t1 - d.lastCharDecoded) := by
      rintro ⟨-, hnp⟩
      omega
    have hB : ¬(0 < d.buffer.length ∧
        silenceExpired d.silenceTimer t1 = true) := by
      rintro ⟨-, hs⟩
      rw [hto] at hs
      simp [silenceExpired] at hs
    have hC : ¬(d.state ≠ DSt.IDLE ∧ d.buffer.length = 0 ∧
        IDLE_TIMEOUT < t1 - d.lastValidRead) := by
      rintro ⟨-, hz, -⟩
      omega
    have hD : (0 : ℚ) < THRESHOLD := by norm_num [THRESHOLD]
    have hng : noiseGate d t1
        = { d with consecutiveFrames := 0, silenceTimer := some t1 } := by
      simp [noiseGate, hbuf, hto]
    have hstep1 : handleFrequencyInput d t1 0 0 = (noiseGate d t1, .quiet) := by
      unfold handleFrequencyInput
      rw [if_neg hA, if_neg hB, if_neg hC, if_pos hD]
    refine ⟨noiseGate d t1, hstep1, by rw [hng], by rw [hng], ?_⟩
    have hA2 : ¬(0 < (noiseGate d t1).buffer.length ∧
        NO_PROGRESS_TIMEOUT < t2 - (noiseGate d t1).lastCharDecoded) := by
      rw [hng]
      rintro ⟨-, hnp⟩
      dsimp only at hnp
      omega
    have hB2 : 0 < (noiseGate d t1).buffer.length ∧
        silenceExpired (noiseGate d t1).silenceTimer t2 = true := by
      rw [hng]
      exact ⟨by simpa using hbuf, by simpa [silenceExpired] using hgap⟩
    unfold handleFrequencyInput
    rw [if_neg hA2, if_pos hB2]
  · intro hamp hnp
    unfold handleFrequencyInput
    rw [if_pos ⟨hbuf, hnp⟩]

/-- C5 witness: a decoder holding buffer `"A"` that last decoded at
time 0.  Silent ticks at 500 and 1600 commit via the silence path;
a strong 2000 Hz tick at 4000 commits via the no-progress path. -/
theorem c5_timeout_ordering_witness :
    (∃ d1, handleFrequencyInput { initDecoder 0 with buffer := ['A'] } 500 0 0
        = (d1, StepEvent.quiet) ∧
      d1.silenceTimer = some 500 ∧
      d1.buffer = ({ initDecoder 0 with buffer := ['A'] } : Decoder).buffer ∧
      (handleFrequencyInput d1 1600 0 0).2 = StepEvent.commitSilence) ∧
    handleFrequencyInput { initDecoder 0 with buffer := ['A'] } 4000 2000 128
      = ({ initDecoder 0 with buffer := ['A'] }, StepEvent.commitNoProgress) := by
  have h := c5_timeout_ordering { initDecoder 0 with buffer := ['A'] }
    4000 500 1600 2000 128 (by decide)
  exact ⟨h.1 rfl (by decide) (by decide) (by decide),
         h.2 (by norm_num [THRESHOLD]) (by decide)⟩

/-- C7.  Frame parsing on commit: when the committed (trimmed)
buffer contains the separator, the emitted message's id is the first
separator-delimited segment and its text is the remaining segments
rejoined with the separator; when no separator is present, the
freshly synthesized id is used and the whole trimmed buffer becomes
the text.  In both cases the decoder is simply reset and decoding
continues — no failure is surfaced. -/
theorem c7_frame_parsing (st : Station) (now : ℕ) (fid : List Char)
    (delay : ℕ)
    (hlen : 0 < (trimChars st.dec.buffer).length)
    (hnew : st.seenIds.contains
      (parseFrame fid (trimChars st.dec.buffer)).1 = false) :
    (SEPARATOR ∈ trimChars st.dec.buffer →
      (commitReceivedMessage st now fid delay).messages
        = st.messages
          ++ [⟨(splitSep SEPARATOR (trimChars st.dec.buffer)).headI,
               List.intercalate [SEPARATOR]
                 (splitSep SEPARATOR (trimChars st.dec.buffer)).tail,
               Sender.other, now⟩]) ∧
    (SEPARATOR ∉ trimChars st.dec.buffer →
      (commitReceivedMessage st now fid delay).messages
        = st.messages ++ [⟨fid, trimChars st.dec.buffer, Sender.other, now⟩]) ∧
    (commitReceivedMessage st now fid delay).dec.state = DSt.IDLE ∧
    (commitReceivedMessage st now fid delay).dec.buffer = [] := by
  have hbase : ∀ hmsg : Message,
      ⟨(parseFrame fid (trimChars st.dec.buffer)).1,
       (parseFrame fid (trimChars st.dec.buffer)).2,
       Sender.other, now⟩ = hmsg →
      (commitReceivedMessage st now fid delay).messages
        = st.messages ++ [hmsg] := by
    intro hmsg hh
    unfold commitReceivedMessage
    dsimp only
    rw [if_pos hlen, if_neg (by simpa using hnew)]
    simp [hh]
  refine ⟨?_, ?_, ?_, ?_⟩
  · intro hmem
    exact hbase _ (by rw [parseFrame_of_mem fid _ hmem])
  · intro hmem
    exact hbase _ (by rw [parseFrame_of_not_mem fid _ hmem])
  · exact (commit_dec_spec st now fid delay).2.2.1
  · exact (commit_dec_spec st now fid delay).1

/-- C7 witness: committing buffer `"AB|HI"` (id unseen) emits the
message with id `"AB"` and text `"HI"`, and leaves the decoder reset
to `IDLE` with an empty buffer. -/
theorem c7_frame_parsing_witness :
    (commitReceivedMessage
        { dec := { initDecoder 0 with buffer := ['A', 'B', '|', 'H', 'I'] }
          seenIds := [], messages := [], relayQueue := [] } 5 ['Q'] 9).messages
      = [⟨['A', 'B'], ['H', 'I'], Sender.other, 5⟩] ∧
    (commitReceivedMessage
        { dec := { initDecoder 0 with buffer := ['A', 'B', '|', 'H', 'I'] }
          seenIds := [], messages := [], relayQueue := [] } 5 ['Q'] 9).dec.state
      = DSt.IDLE := by
  have h := c7_frame_parsing
    { dec := { initDecoder 0 with buffer := ['A', 'B', '|', 'H', 'I'] }
      seenIds := [], messages := [], relayQueue := [] } 5 ['Q'] 9
    (by decide) (by decide)
  refine ⟨?_, h.2.2.1⟩
  have h1 := h.1 (by decide)
  rw [h1]
  decide

/-- C2.  Idempotent dedup: committing a first frame whose parsed id
`i` is unseen emits exactly one inbound message and enqueues exactly
one pending relay entry; a second commit of any buffer parsing to
the same id `i`, whatever its text, emits no message and enqueues no
relay entry. -/
theorem c2_idempotent_dedup (st : Station) (now1 now2 : ℕ)
    (fid1 fid2 : List Char) (dl1 dl2 : ℕ) (b2 i : List Char)
    (h1 : 0 < (trimChars st.dec.buffer).length)
    (h2 : 0 < (trimChars b2).length)
    (hi1 : (parseFrame fid1 (trimChars st.dec.buffer)).1 = i)
    (hi2 : (parseFrame fid2 (trimChars b2)).1 = i)
    (hnew : st.seenIds.contains i = false) :
    (∃ t, (commitReceivedMessage st now1 fid1 dl1).messages
            = st.messages ++ [⟨i, t, Sender.other, now1⟩] ∧
          (commitReceivedMessage st now1 fid1 dl1).relayQueue
            = st.relayQueue ++ [⟨i, t, now1, RelayStatus.pending, dl1⟩]) ∧
    (commitReceivedMessage
        { commitReceivedMessage st now1 fid1 dl1 with
          dec := { (commitReceivedMessage st now1 fid1 dl1).dec with
                   buffer := b2 } } now2 fid2 dl2).messages
      = (commitReceivedMessage st now1 fid1 dl1).messages ∧
    (commitReceivedMessage
        { commitReceivedMessage st now1 fid1 dl1 with
          dec := { (commitReceivedMessage st now1 fid1 dl1).dec with
                   buffer := b2 } } now2 fid2 dl2).relayQueue
      = (commitReceivedMessage st now1 fid1 dl1).relayQueue := by
  obtain ⟨e1m, e1r, e1s⟩ :=
    commit_emit st now1 fid1 dl1 h1 (by rw [hi1]; exact hnew)
  have hseen2 :
      ({ commitReceivedMessage st now1 fid1 dl1 with
         dec := { (commitReceivedMessage st now1 fid1 dl1).dec with
                  buffer := b2 } } : Station).seenIds.contains
        (parseFrame fid2 (trimChars
          ({ commitReceivedMessage st now1 fid1 dl1 with
             dec := { (commitReceivedMessage st now1 fid1 dl1).dec with
                      buffer := b2 } } : Station).dec.buffer)).1 = true := by
    show (commitReceivedMessage st now1 fid1 dl1).seenIds.contains
      (parseFrame fid2 (trimChars b2)).1 = true
    rw [hi2, e1s, hi1]
    simp
  obtain ⟨e2m, e2r, -⟩ := commit_dup _ now2 fid2 dl2 hseen2
  exact ⟨⟨(parseFrame fid1 (trimChars st.dec.buffer)).2,
          by rw [e1m, hi1], by rw [e1r, hi1]⟩, e2m, e2r⟩

/-- C2 witness: committing `"X1|hi"` then `"X1|yo"` from a station
with no seen ids: the first commit emits one message and one relay
entry with id `"X1"`, the second changes neither list. -/
theorem c2_idempotent_dedup_witness :
    (∃ t, (commitReceivedMessage
            { dec := { initDecoder 0 with buffer := ['X', '1', '|', 'h', 'i'] }
              seenIds := [], messages := [], relayQueue := [] }
            10 ['F'] 3).messages
            = ([] : List Message) ++ [⟨['X', '1'], t, Sender.other, 10⟩] ∧
          (commitReceivedMessage
            { dec := { initDecoder 0 with buffer := ['X', '1', '|', 'h', 'i'] }
              seenIds := [], messages := [], relayQueue := [] }
            10 ['F'] 3).relayQueue
            = ([] : List RelayEntry)
              ++ [⟨['X', '1'], t, 10, RelayStatus.pending, 3⟩]) ∧
    (commitReceivedMessage
        { commitReceivedMessage
            { dec := { initDecoder 0 with buffer := ['X', '1', '|', 'h', 'i'] }
              seenIds := [], messages := [], relayQueue := [] } 10 ['F'] 3 with
          dec := { (commitReceivedMessage
            { dec := { initDecoder 0 with buffer := ['X', '1', '|', 'h', 'i'] }
              seenIds := [], messages := [], relayQueue := [] }
            10 ['F'] 3).dec with
                   buffer := ['X', '1', '|', 'y', 'o'] } } 20 ['G'] 4).messages
      = (commitReceivedMessage
          { dec := { initDecoder 0 with buffer := ['X', '1', '|', 'h', 'i'] }
            seenIds := [], messages := [], relayQueue := [] }
          10 ['F'] 3).messages ∧
    (commitReceivedMessage
        { commitReceivedMessage
            { dec := { initDecoder 0 with buffer := ['X', '1', '|', 'h', 'i'] }
              seenIds := [], messages := [], relayQueue := [] } 10 ['F'] 3 with
          dec := { (commitReceivedMessage
            { dec := { initDecoder 0 with buffer := ['X', '1', '|', 'h', 'i'] }
              seenIds := [], messages := [], relayQueue := [] }
            10 ['F'] 3).dec with
                   buffer := ['X', '1', '|', 'y', 'o'] } } 20 ['G'] 4).relayQueue
      = (commitReceivedMessage
          { dec := { initDecoder 0 with buffer := ['X', '1', '|', 'h', 'i'] }
            seenIds := [], messages := [], relayQueue := [] }
          10 ['F'] 3).relayQueue :=
  c2_idempotent_dedup
    { dec := { initDecoder 0 with buffer := ['X', '1', '|', 'h', 'i'] }
      seenIds := [], messages := [], relayQueue := [] }
    10 20 ['F'] ['G'] 3 4 ['X', '1', '|', 'y', 'o'] ['X', '1']
    (by decide) (by decide) (by decide) (by decide) (by decide)

/-- C10.  Empty-id edge case: when the trimmed buffer begins with
the separator, the parsed frame id is the empty string; the first
such commit records the empty id in the seen set, and once the empty
id is seen, every later commit whose trimmed buffer also begins with
the separator is discarded as a duplicate, whatever its text. -/
theorem c10_empty_id (st : Station) (now : ℕ) (fid : List Char) (delay : ℕ)
    (rest : List Char) (hb : trimChars st.dec.buffer = SEPARATOR :: rest) :
    (parseFrame fid (trimChars st.dec.buffer)).1 = [] ∧
    (st.seenIds.contains ([] : List Char) = false →
      (commitReceivedMessage st now fid delay).seenIds
        = st.seenIds ++ [[]] ∧
      (commitReceivedMessage st now fid delay).messages
        = st.messages
          ++ [⟨[], (parseFrame fid (trimChars st.dec.buffer)).2,
               Sender.other, now⟩]) ∧
    (st.seenIds.contains ([] : List Char) = true →
      (commitReceivedMessage st now fid delay).messages = st.messages ∧
      (commitReceivedMessage st now fid delay).relayQueue
        = st.relayQueue) := by
  have hid : (parseFrame fid (trimChars st.dec.buffer)).1 = [] := by
    rw [hb, parseFrame_of_mem fid _ (by simp)]
    simp [splitSep]
  refine ⟨hid, ?_, ?_⟩
  · intro hnew
    have h := commit_emit st now fid delay (by rw [hb]; simp)
      (by rw [hid]; exact hnew)
    exact ⟨by rw [h.2.2, hid], by rw [h.1, hid]⟩
  · intro hseen
    have h := commit_dup st now fid delay (by rw [hid]; exact hseen)
    exact ⟨h.1, h.2.1⟩

/-- C10 witness: buffer `"|h"` against an empty seen set parses to
the empty id and records it; against a seen set already holding the
empty id (with buffer `"|y"`), the commit is discarded. -/
theorem c10_empty_id_witness :
    (parseFrame ['Q'] (trimChars ['|', 'h'])).1 = [] ∧
    (commitReceivedMessage
        { dec := { initDecoder 0 with buffer := ['|', 'h'] }
          seenIds := [], messages := [], relayQueue := [] }
        7 ['Q'] 2).seenIds = [[]] ∧
    (commitReceivedMessage
        { dec := { initDecoder 0 with buffer := ['|', 'y'] }
          seenIds := [[]], messages := [], relayQueue := [] }
        8 ['R'] 2).messages = [] := by
  have ha := c10_empty_id
    { dec := { initDecoder 0 with buffer := ['|', 'h'] }
      seenIds := [], messages := [], relayQueue := [] }
    7 ['Q'] 2 ['h'] (by decide)
  have hb := c10_empty_id
    { dec := { initDecoder 0 with buffer := ['|', 'y'] }
      seenIds := [[]], messages := [], relayQueue := [] }
    8 ['R'] 2 ['y'] (by decide)
  refine ⟨ha.1, ?_, (hb.2.2 (by decide)).1⟩
  have h2 := (ha.2.1 (by decide)).1
  rw [h2]
  decide

/-- C4.  Relay scheduler tick behavior.  While a transmission or an
active reception is in progress, a tick leaves the queue completely
unchanged and transmits nothing.  Otherwise, if some pending entries
are ready (their `relayAfter` has elapsed), the earliest-queued
ready entry `r` is the one transmitted: it reappears with status
`relayed`, every entry with a different id is untouched, and the
queue's id sequence is unchanged (nothing skipped, expired or
removed); if no entry is ready the queue is unchanged.  Finally, an
entry already `relayed` is never transmitted again and survives any
later idle tick unchanged (assuming the queue's ids are distinct, an
invariant guaranteed by the dedup layer). -/
theorem c4_relay_tick (queue : List RelayEntry) (now : ℕ)
    (sending receiving : Bool) :
    ((sending = true ∨ receiving = true) →
      relayTick queue sending receiving now = (queue, none)) ∧
    (∀ r rs, queue.filter (isReady now) = r :: rs →
      (relayTick queue false false now).2 = some r.id ∧
      r.status = RelayStatus.pending ∧
      { r with status := RelayStatus.relayed }
        ∈ (relayTick queue false false now).1 ∧
      (∀ m ∈ queue, m.id ≠ r.id → m ∈ (relayTick queue false false now).1) ∧
      (relayTick queue false false now).1.map RelayEntry.id
        = queue.map RelayEntry.id) ∧
    (queue.filter (isReady now) = [] →
      relayTick queue false false now = (queue, none)) ∧
    (∀ (q2 : List RelayEntry) (now2 : ℕ) (e : RelayEntry),
      (q2.map RelayEntry.id).Nodup → e ∈ q2 →
      e.status = RelayStatus.relayed →
      (relayTick q2 false false now2).2 ≠ some e.id ∧
      e ∈ (relayTick q2 false false now2).1) := by
  have hsel : ∀ (q : List RelayEntry) (n : ℕ) (r : RelayEntry)
      (rs : List RelayEntry), q.filter (isReady n) = r :: rs →
      relayTick q false false n
        = (q.map (fun m =>
            if m.id = r.id then { m with status := RelayStatus.relayed }
            else m), some r.id) := by
    intro q n r rs hr
    unfold relayTick
    rw [if_neg (by simp), hr]
  have hpend : ∀ (q : List RelayEntry) (n : ℕ) (r : RelayEntry)
      (rs : List RelayEntry), q.filter (isReady n) = r :: rs →
      r ∈ q ∧ r.status = RelayStatus.pending := by
    intro q n r rs hr
    have hmem := hr ▸ List.mem_cons_self r rs
    refine ⟨List.mem_of_mem_filter hmem, ?_⟩
    have hx : isReady n r = true := List.of_mem_filter hmem
    have hx2 : r.status = RelayStatus.pending ∧
        r.relayAfter ≤ n - r.receivedAt := by
      simpa [isReady] using hx
    exact hx2.1
  refine ⟨?_, ?_, ?_, ?_⟩
  · intro hbusy
    unfold relayTick
    rcases hbusy with h | h <;> rw [h] <;> simp
  · intro r rs hr
    obtain ⟨hrmem, hrpend⟩ := hpend queue now r rs hr
    rw [hsel queue now r rs hr]
    refine ⟨rfl, hrpend, ?_, ?_, ?_⟩
    · exact List.mem_map.mpr ⟨r, hrmem, by simp⟩
    · intro m hm hne
      exact List.mem_map.mpr ⟨m, hm, by simp [hne]⟩
    · rw [List.map_map]
      refine List.map_congr_left ?_
      intro m _
      by_cases hme : m.id = r.id <;> simp [hme, Function.comp]
  · intro hnone
    unfold relayTick
    rw [if_neg (by simp), hnone]
  · intro q2 now2 e hnodup hmem hrel
    by_cases hready : q2.filter (isReady now2) = []
    · unfold relayTick
      rw [if_neg (by simp), hready]
      simp [hmem]
    · obtain ⟨r, rs, hr⟩ := List.exists_cons_of_ne_nil hready
      obtain ⟨hrmem, hrpend⟩ := hpend q2 now2 r rs hr
      have hne : e.id ≠ r.id := by
        intro heq
        have her : e = r := List.inj_on_of_nodup_map hnodup hmem hrmem heq
        rw [her, hrpend] at hrel
        exact absurd hrel (by simp)
      rw [hsel q2 now2 r rs hr]
      constructor
      · show some r.id ≠ some e.id
        simp only [ne_eq, Option.some.injEq]
        exact fun h => hne h.symm
      · exact List.mem_map.mpr ⟨e, hmem, by simp [hne]⟩

/-- C4 witness: a queue with entry A (delay 100) and entry B (delay
5), both received at 0.  A busy tick at 50 changes nothing; an idle
tick at 50 transmits B (the earliest ready entry) and marks it
relayed; a later idle tick never re-transmits the relayed B. -/
theorem c4_relay_tick_witness :
    relayTick [⟨['A'], ['x'], 0, RelayStatus.pending, 100⟩,
               ⟨['B'], ['y'], 0, RelayStatus.pending, 5⟩] true false 50
      = ([⟨['A'], ['x'], 0, RelayStatus.pending, 100⟩,
          ⟨['B'], ['y'], 0, RelayStatus.pending, 5⟩], none) ∧
    (relayTick [⟨['A'], ['x'], 0, RelayStatus.pending, 100⟩,
                ⟨['B'], ['y'], 0, RelayStatus.pending, 5⟩] false false 50).2
      = some ['B'] ∧
    (⟨['B'], ['y'], 0, RelayStatus.relayed, 5⟩ : RelayEntry)
      ∈ (relayTick [⟨['A'], ['x'], 0, RelayStatus.pending, 100⟩,
                    ⟨['B'], ['y'], 0, RelayStatus.pending, 5⟩]
          false false 50).1 ∧
    (relayTick [⟨['B'], ['y'], 0, RelayStatus.relayed, 5⟩]
        false false 99).2 ≠ some ['B'] := by
  have h := c4_relay_tick
    [⟨['A'], ['x'], 0, RelayStatus.pending, 100⟩,
     ⟨['B'], ['y'], 0, RelayStatus.pending, 5⟩] 50 true false
  have hsel := h.2.1 ⟨['B'], ['y'], 0, RelayStatus.pending, 5⟩ [] (by decide)
  have hrel := h.2.2.2 [⟨['B'], ['y'], 0, RelayStatus.relayed, 5⟩] 99
    ⟨['B'], ['y'], 0, RelayStatus.relayed, 5⟩ (by decide) (by decide) rfl
  exact ⟨h.1 (Or.inl rfl), hsel.1, hsel.2.2.1, hrel.1⟩

/-- C3.  Tight acceptance in `READ_CHAR`: a strong non-marker
sample whose estimated character lies outside `[32, 126]`, or whose
frequency is farther than `step/2` from that character's exact
center frequency, zeroes the debounce counter and never contributes
to the buffer; a sample passing both tests is accepted as a
debounce candidate (the counter is incremented, and on reaching the
threshold with a fresh character the character is appended). -/
theorem c3_tight_acceptance (d : Decoder) (now : ℕ) (freq amp : ℚ)
    (hstate : d.state = DSt.READ_CHAR)
    (hA : ¬(0 < d.buffer.length ∧
      NO_PROGRESS_TIMEOUT < now - d.lastCharDecoded))
    (hB : ¬(0 < d.buffer.length ∧ silenceExpired d.silenceTimer now = true))
    (hC : ¬(d.state ≠ DSt.IDLE ∧ d.buffer.length = 0 ∧
      IDLE_TIMEOUT < now - d.lastValidRead))
    (hamp : THRESHOLD ≤ amp)
    (hmark : isFreq freq (markerOf d.activeMode) = false) :
    ((¬(32 ≤ estimateChar d.activeMode freq ∧
        estimateChar d.activeMode freq ≤ 126) ∨
      ¬(|freq - (baseOf d.activeMode
          + estimateChar d.activeMode freq * stepOf d.activeMode)|
         < stepOf d.activeMode / 2)) →
      (handleFrequencyInput d now freq amp).1.consecutiveFrames = 0 ∧
      (handleFrequencyInput d now freq amp).1.buffer = d.buffer ∧
      (handleFrequencyInput d now freq amp).2 = StepEvent.quiet) ∧
    ((32 ≤ estimateChar d.activeMode freq ∧
      estimateChar d.activeMode freq ≤ 126) →
     |freq - (baseOf d.activeMode
        + estimateChar d.activeMode freq * stepOf d.activeMode)|
       < stepOf d.activeMode / 2 →
     d.consecutiveFrames + 1 < 3 →
      (handleFrequencyInput d now freq amp).1.consecutiveFrames
        = d.consecutiveFrames + 1 ∧
      (handleFrequencyInput d now freq amp).1.buffer = d.buffer) ∧
    ((32 ≤ estimateChar d.activeMode freq ∧
      estimateChar d.activeMode freq ≤ 126) →
     |freq - (baseOf d.activeMode
        + estimateChar d.activeMode freq * stepOf d.activeMode)|
       < stepOf d.activeMode / 2 →
     3 ≤ d.consecutiveFrames + 1 →
     some (Char.ofNat (estimateChar d.activeMode freq).toNat)
       ≠ d.lastDetectedChar →
      (handleFrequencyInput d now freq amp).1.buffer
        = d.buffer
          ++ [Char.ofNat (estimateChar d.activeMode freq).toNat]) := by
  obtain ⟨hes, heb, hef, hea, hel, -, -⟩ := clearTimer_fields d
  have key : handleFrequencyInput d now freq amp
      = (readStep (if 0 < d.buffer.length then { d with silenceTimer := none }
          else d) now freq, StepEvent.quiet) := by
    rw [hfi_strong d now freq amp hA hB hC hamp,
        show (if 0 < d.buffer.length then { d with silenceTimer := none }
          else d).state = DSt.READ_CHAR from hes.trans hstate]
  have hspec := readStep_spec
    (if 0 < d.buffer.length then { d with silenceTimer := none } else d)
    now freq (by rw [hea]; exact hmark)
  rw [hea, hef, heb, hel] at hspec
  refine ⟨?_, ?_, ?_⟩
  · intro hrej
    rw [key]
    dsimp only
    rw [hspec.1 hrej]
    exact ⟨rfl, rfl, rfl⟩
  · intro hrange htight hlt
    rw [key]
    dsimp only
    rw [hspec.2.1 hrange htight hlt]
    exact ⟨rfl, rfl⟩
  · intro hrange htight hge hfresh
    rw [key]
    dsimp only
    rw [hspec.2.2 hrange htight hge hfresh]

/-- C3 witness: decoder locked on `AUDIBLE` in `READ_CHAR` with
buffer `"A"`.  A 4150 Hz sample estimates character 33 (center
4180 Hz) but misses the ±30 Hz window, so the counter resets and the
buffer is untouched; a 4140 Hz sample estimates character 32 (center
4120 Hz) inside the window and is accepted as a debounce candidate. -/
theorem c3_tight_acceptance_witness :
    ((handleFrequencyInput
        { initDecoder 0 with state := DSt.READ_CHAR, buffer := ['A'] }
        10 4150 128).1.consecutiveFrames = 0 ∧
     (handleFrequencyInput
        { initDecoder 0 with state := DSt.READ_CHAR, buffer := ['A'] }
        10 4150 128).1.buffer
       = ({ initDecoder 0 with
            state := DSt.READ_CHAR, buffer := ['A'] } : Decoder).buffer) ∧
    (handleFrequencyInput
        { initDecoder 0 with state := DSt.READ_CHAR, buffer := ['A'] }
        10 4140 128).1.consecutiveFrames
      = ({ initDecoder 0 with
           state := DSt.READ_CHAR, buffer := ['A'] } : Decoder).consecutiveFrames
        + 1 := by
  have hamp : THRESHOLD ≤ (128 : ℚ) := by norm_num [THRESHOLD]
  have hmark1 : isFreq 4150 (markerOf ModeName.AUDIBLE) = false := by
    simp only [isFreq, markerOf, RANGE, decide_eq_false_iff_not]
    rw [abs_sub_lt_iff]
    rintro ⟨h, -⟩
    norm_num at h
  have hmark2 : isFreq 4140 (markerOf ModeName.AUDIBLE) = false := by
    simp only [isFreq, markerOf, RANGE, decide_eq_false_iff_not]
    rw [abs_sub_lt_iff]
    rintro ⟨h, -⟩
    norm_num at h
  have hest1 : estimateChar ModeName.AUDIBLE 4150 = 33 := by
    simp only [estimateChar, baseOf, stepOf]
    norm_num [round_eq]
  have hest2 : estimateChar ModeName.AUDIBLE 4140 = 32 := by
    simp only [estimateChar, baseOf, stepOf]
    norm_num [round_eq]
  have h1 := c3_tight_acceptance
    { initDecoder 0 with state := DSt.READ_CHAR, buffer := ['A'] }
    10 4150 128 rfl (by decide) (by decide) (by decide) hamp hmark1
  have h2 := c3_tight_acceptance
    { initDecoder 0 with state := DSt.READ_CHAR, buffer := ['A'] }
    10 4140 128 rfl (by decide) (by decide) (by decide) hamp hmark2
  have hrej : ¬(|(4150 : ℚ) - (baseOf ModeName.AUDIBLE
      + (estimateChar ModeName.AUDIBLE 4150 : ℤ) * stepOf ModeName.AUDIBLE)|
      < stepOf ModeName.AUDIBLE / 2) := by
    rw [hest1]
    simp only [baseOf, stepOf]
    rw [abs_sub_lt_iff]
    rintro ⟨-, h⟩
    norm_num at h
  have hacc : |(4140 : ℚ) - (baseOf ModeName.AUDIBLE
      + (estimateChar ModeName.AUDIBLE 4140 : ℤ) * stepOf ModeName.AUDIBLE)|
      < stepOf ModeName.AUDIBLE / 2 := by
    rw [hest2]
    simp only [baseOf, stepOf]
    rw [abs_sub_lt_iff]
    constructor <;> norm_num
  have hrange : (32 : ℤ) ≤ estimateChar ModeName.AUDIBLE 4140 ∧
      estimateChar ModeName.AUDIBLE 4140 ≤ 126 := by
    rw [hest2]
    exact ⟨by norm_num, by norm_num⟩
  have ha := h1.1 (Or.inr hrej)
  have hb := h2.2.1 hrange hacc (by decide)
  exact ⟨⟨ha.1, ha.2.1⟩, hb.1⟩

/-- C8 (amended).  No rejection or stripping happens before
modulation: for every input string and mode, the Modulator schedules
exactly one marker tone and one data tone per character, the data
tone at `base + charCode * step` — including characters whose code
points lie outside the printable range 32–126. -/
theorem c8_no_payload_restriction (m : ModeName) (start : ℚ)
    (s : List Char) :
    (toneSchedule m start s).map ToneEvent.freq
      = s.flatMap (fun c => [markerOf m, dataFreq m c]) := by
  unfold toneSchedule
  generalize start + 1 / 10 = q
  induction s generalizing q with
  | nil => simp [scheduleFrom]
  | cons c rest ih => simp [scheduleFrom, ih]

/-- C8 counterexample.  Sending the one-character message `é`
(code point 233) schedules a data tone at the frequency of
character code 233 — a code outside [32, 126] whose frequency no
in-range character shares.  Nothing in the send path strips or
rejects it. -/
theorem c8_counterexample :
    ((toneSchedule ModeName.AUDIBLE 0
        (sendPayload ['A'] [Char.ofNat 233])).map ToneEvent.freq).contains
      (dataFreq ModeName.AUDIBLE (Char.ofNat 233)) = true ∧
    126 < (Char.ofNat 233).toNat ∧
    (∀ k : ℕ, k ≤ 126 →
      dataFreq ModeName.AUDIBLE (Char.ofNat 233)
        ≠ baseOf ModeName.AUDIBLE + k * stepOf ModeName.AUDIBLE) := by
  refine ⟨?_, by decide, ?_⟩
  · simp only [sendPayload, SEPARATOR, toneSchedule, scheduleFrom,
      List.map_cons, List.map_nil, List.cons_append, List.nil_append]
    simp
  · intro k hk heq
    have hc : (Char.ofNat 233).toNat = 233 := by decide
    simp only [dataFreq, baseOf, stepOf, hc] at heq
    push_cast at heq
    have hkq : (k : ℚ) = 233 := by linarith
    have : k = 233 := by exact_mod_cast hkq
    omega

end NoFi
